import Mathlib

/-!
Verification of the facial region segmentation and contour vectorization
engine of the image-processing service, as a shallow embedding.

Conventions of the embedding:
* a binary mask (uint8 grid holding 0 or 255) is a function from integer
  coordinates (row, column) to Bool; the grid bounds (h, w) are passed
  explicitly and every statement quantifies only over in-bounds pixels;
* a segmentation map is a function from coordinates to a color triple;
* OpenCV routines with simple exact semantics (bitwise ops, subtract,
  morphology with the 3x3 and 5x5 elliptical structuring elements,
  warpAffine geometry, np.unique, np.mean) are translated directly;
  contour tracing (findContours / fillPoly / contourArea selection) is
  modelled by an explicit oracle record (CVModel) whose fields stand for
  those library calls, and theorems that need a property of the traced
  contours take that property (true of the library) as a hypothesis;
* Python float expressions on integer inputs are modelled by exact
  rational arithmetic with truncation toward zero, matching int();
  the few spots where binary floating point could deviate are noted.
-/

/-- RGB color triple as stored in one segmentation-map pixel (uint8 each). -/
abbrev Color := Nat × Nat × Nat

/-- A pixel of a photograph (three uint8 channels). -/
abbrev Pixel := Nat × Nat × Nat

/-- An image as a list of pixel rows (numpy ndarray of shape (H, W, 3)). -/
abbrev Image := List (List Pixel)

/-- A binary mask: true is foreground (255), false is background (0). -/
abbrev Mask := Int → Int → Bool

/-- A segmentation map assigning one color to every pixel. -/
abbrev SegMap := Int → Int → Color

/-- The all-zero (background) color, excluded from region detection. -/
def blackColor : Color := (0, 0, 0)

/-- The everywhere-empty mask (np.zeros_like). -/
def zeroMask : Mask := fun _ _ => false

/-- Height of an image value (image.shape[0]). -/
def imageH (img : Image) : Nat := img.length

/-- Width of an image value (image.shape[1], taken from the first row). -/
def imageW (img : Image) : Nat := (img.headD []).length

/-- Lexicographic order on color triples; np.unique(axis=0) sorts rows in
this order. -/
def colorLe (a b : Color) : Bool :=
  decide (a.1 < b.1 ∨ (a.1 = b.1 ∧ (a.2.1 < b.2.1 ∨ (a.2.1 = b.2.1 ∧ a.2.2 ≤ b.2.2))))

/-- Insert a color into a list, keeping colorLe order. -/
def insertColor (x : Color) : List Color → List Color
  | [] => [x]
  | y :: ys => if colorLe x y then x :: y :: ys else y :: insertColor x ys

/-- Insertion sort by colorLe; models the sort performed by np.unique. -/
def sortColors : List Color → List Color
  | [] => []
  | x :: xs => insertColor x (sortColors xs)

/-- Row-major list of all pixels of the h-by-w segmentation map
(segmentation_map.reshape(-1, 3)). -/
def segPixels (h w : Nat) (seg : SegMap) : List Color :=
  (List.range h).flatMap fun r => (List.range w).map fun c => seg (Int.ofNat r) (Int.ofNat c)

/-- Embeds FacialSegmentationProcessor._get_unique_colors: np.unique over the
flattened pixel rows, i.e. the sorted list of distinct colors present. -/
def getUniqueColors (h w : Nat) (seg : SegMap) : List Color :=
  (sortColors (segPixels h w seg)).dedup

/-- The main-face color selection of _process_subdivided_regions: walk the
unique colors in order and take the first one that is not pure black. -/
def firstNonBlackColor (h w : Nat) (seg : SegMap) : Option Color :=
  (getUniqueColors h w seg).find? fun c => decide (c ≠ blackColor)

/-- The potential_colors list of _process_additional_regions: unique colors
that are neither black nor the main-face color. -/
def potentialColors (uniqueColors : List Color) (region1 : Color) : List Color :=
  uniqueColors.filter fun c => decide (c ≠ blackColor ∧ c ≠ region1)

theorem colorLe_refl (a : Color) : colorLe a a = true := by
  simp [colorLe]

theorem colorLe_trans {a b c : Color} (h1 : colorLe a b = true) (h2 : colorLe b c = true) :
    colorLe a c = true := by
  simp only [colorLe, decide_eq_true_eq] at h1 h2 ⊢
  obtain ⟨a1, a2, a3⟩ := a
  obtain ⟨b1, b2, b3⟩ := b
  obtain ⟨c1, c2, c3⟩ := c
  simp only at h1 h2 ⊢
  omega

theorem colorLe_total (a b : Color) : colorLe a b = true ∨ colorLe b a = true := by
  simp only [colorLe, decide_eq_true_eq]
  obtain ⟨a1, a2, a3⟩ := a
  obtain ⟨b1, b2, b3⟩ := b
  simp only
  omega

theorem mem_insertColor {a x : Color} {l : List Color} :
    a ∈ insertColor x l ↔ a = x ∨ a ∈ l := by
  induction l with
  | nil => simp [insertColor]
  | cons y ys ih =>
    by_cases h : colorLe x y = true
    · rw [insertColor, if_pos h]
      simp
    · rw [insertColor, if_neg h]
      simp only [List.mem_cons, ih]
      tauto

theorem pairwise_insertColor {x : Color} {l : List Color}
    (hl : l.Pairwise fun a b => colorLe a b = true) :
    (insertColor x l).Pairwise fun a b => colorLe a b = true := by
  induction l with
  | nil => simp [insertColor]
  | cons y ys ih =>
    obtain ⟨hy, hys⟩ := List.pairwise_cons.1 hl
    by_cases h : colorLe x y = true
    · rw [insertColor, if_pos h]
      refine List.Pairwise.cons ?_ (List.Pairwise.cons hy hys)
      intro b hb
      rcases List.mem_cons.1 hb with rfl | hb
      · exact h
      · exact colorLe_trans h (hy b hb)
    · rw [insertColor, if_neg h]
      refine List.Pairwise.cons ?_ (ih hys)
      intro b hb
      rcases mem_insertColor.1 hb with rfl | hb
      · rcases colorLe_total b y with h2 | h2
        · exact absurd h2 h
        · exact h2
      · exact hy b hb

theorem mem_sortColors {a : Color} {l : List Color} : a ∈ sortColors l ↔ a ∈ l := by
  induction l with
  | nil => simp [sortColors]
  | cons x xs ih => simp [sortColors, mem_insertColor, ih]

theorem pairwise_sortColors (l : List Color) :
    (sortColors l).Pairwise fun a b => colorLe a b = true := by
  induction l with
  | nil => simp [sortColors]
  | cons x xs ih => exact pairwise_insertColor ih

theorem mem_getUniqueColors {h w : Nat} {seg : SegMap} {a : Color} :
    a ∈ getUniqueColors h w seg ↔ a ∈ segPixels h w seg := by
  simp [getUniqueColors, List.mem_dedup, mem_sortColors]

theorem pairwise_getUniqueColors (h w : Nat) (seg : SegMap) :
    (getUniqueColors h w seg).Pairwise fun a b => colorLe a b = true :=
  (pairwise_sortColors (segPixels h w seg)).sublist (List.dedup_sublist _)

theorem mem_segPixels {h w : Nat} {seg : SegMap} {a : Color} :
    a ∈ segPixels h w seg ↔ ∃ r < h, ∃ c < w, seg (r : Int) (c : Int) = a := by
  simp only [segPixels, List.mem_flatMap, List.mem_map, List.mem_range]
  aesop

theorem find?_min_of_pairwise {l : List Color} {p : Color → Bool} {x : Color}
    (hl : l.Pairwise fun a b => colorLe a b = true) (hx : l.find? p = some x) :
    x ∈ l ∧ p x = true ∧ ∀ y ∈ l, p y = true → colorLe x y = true := by
  induction l with
  | nil => simp at hx
  | cons a t ih =>
    rcases hl with _ | ⟨ha, ht⟩
    by_cases hpa : p a = true
    · rw [List.find?_cons_of_pos _ hpa] at hx
      cases hx
      refine ⟨List.mem_cons_self _ _, hpa, ?_⟩
      intro y hy _
      rcases List.mem_cons.1 hy with rfl | hy
      · exact colorLe_refl _
      · exact ha y hy
    · rw [List.find?_cons_of_neg _ hpa] at hx
      obtain ⟨hmem, hpx, hmin⟩ := ih ht hx
      refine ⟨List.mem_cons_of_mem _ hmem, hpx, ?_⟩
      intro y hy hpy
      rcases List.mem_cons.1 hy with rfl | hy
      · exact absurd hpy hpa
      · exact hmin y hy hpy

/-- C9: the main face region color is the lexicographically smallest non-black
color present in the segmentation map. Unique colors are enumerated in sorted
order, the first color differing from (0,0,0) is taken as region 1, and pure
black never enters any region: the main color is non-black and the additional
region colors exclude black (and the main color). When every pixel is black,
no main color is selected. -/
theorem mainFaceColor_lex_min (h w : Nat) (seg : SegMap) :
    (∀ c1, firstNonBlackColor h w seg = some c1 →
      c1 ≠ blackColor ∧
      (∃ r < h, ∃ k < w, seg (r : Int) (k : Int) = c1) ∧
      (∀ c2, (∃ r < h, ∃ k < w, seg (r : Int) (k : Int) = c2) → c2 ≠ blackColor →
        colorLe c1 c2 = true) ∧
      (∀ c2 ∈ potentialColors (getUniqueColors h w seg) c1, c2 ≠ blackColor ∧ c2 ≠ c1)) ∧
    (firstNonBlackColor h w seg = none ↔
      ∀ c2, (∃ r < h, ∃ k < w, seg (r : Int) (k : Int) = c2) → c2 = blackColor) := by
  constructor
  · intro c1 hc1
    obtain ⟨hmem, hp, hmin⟩ :=
      find?_min_of_pairwise (pairwise_getUniqueColors h w seg) hc1
    rw [decide_eq_true_eq] at hp
    refine ⟨hp, mem_segPixels.1 (mem_getUniqueColors.1 hmem), ?_, ?_⟩
    · intro c2 hpres hne
      exact hmin c2 (mem_getUniqueColors.2 (mem_segPixels.2 hpres)) (decide_eq_true_eq.mpr hne)
    · intro c2 hc2
      have := (List.mem_filter.1 hc2).2
      rw [decide_eq_true_eq] at this
      exact this
  · rw [firstNonBlackColor, List.find?_eq_none]
    constructor
    · intro hall c2 hpres
      have := hall c2 (mem_getUniqueColors.2 (mem_segPixels.2 hpres))
      simpa using this
    · intro hall c2 hmem
      simp only [decide_eq_true_eq, not_not]
      exact hall c2 (mem_segPixels.1 (mem_getUniqueColors.1 hmem))

/-- Concrete 1-by-2 segmentation map with one black and one non-black pixel. -/
def segC9 : SegMap := fun _ c => if c = 0 then (0, 0, 0) else (3, 2, 1)

theorem mainFaceColor_lex_min_witness :
    firstNonBlackColor 1 2 segC9 = some (3, 2, 1) ∧ ((3, 2, 1) : Color) ≠ blackColor :=
  ⟨by decide, ((mainFaceColor_lex_min 1 2 segC9).1 (3, 2, 1) (by decide)).1⟩

/-- Offsets of cv2.getStructuringElement(cv2.MORPH_ELLIPSE, (3, 3)): the cross
shaped 3x3 structuring element. -/
def kernel3 : List (Int × Int) := [(-1, 0), (0, -1), (0, 0), (0, 1), (1, 0)]

/-- Offsets of cv2.getStructuringElement(cv2.MORPH_ELLIPSE, (5, 5)): full rows
at vertical offsets -1, 0, 1 plus the single center column at -2 and 2. -/
def kernel5 : List (Int × Int) :=
  [(-2, 0),
   (-1, -2), (-1, -1), (-1, 0), (-1, 1), (-1, 2),
   (0, -2), (0, -1), (0, 0), (0, 1), (0, 2),
   (1, -2), (1, -1), (1, 0), (1, 1), (1, 2),
   (2, 0)]

/-- Kernel selection for a configured structuring element size; the processor
only ever requests elliptical elements of size 3 or 5. -/
def ellipseKernel : Nat → List (Int × Int)
  | 3 => kernel3
  | 5 => kernel5
  | _ => kernel3

def inBounds (h w : Nat) (r c : Int) : Bool :=
  decide (0 ≤ r ∧ r < (h : Int) ∧ 0 ≤ c ∧ c < (w : Int))

/-- cv2.dilate on an h-by-w uint8 mask: a pixel becomes foreground when some
kernel offset reaches an in-bounds foreground pixel; the constant border used
for morphology never adds foreground on dilation. The elliptical kernels are
symmetric, so kernel reflection about the anchor is irrelevant. -/
def dilateK (h w : Nat) (K : List (Int × Int)) (m : Mask) : Mask := fun r c =>
  K.any fun d => inBounds h w (r - d.1) (c - d.2) && m (r - d.1) (c - d.2)

/-- cv2.erode: a pixel survives when every in-bounds kernel offset is
foreground; the constant border used for morphology never removes foreground
on erosion. -/
def erodeK (h w : Nat) (K : List (Int × Int)) (m : Mask) : Mask := fun r c =>
  K.all fun d => !inBounds h w (r + d.1) (c + d.2) || m (r + d.1) (c + d.2)

def iterOp (f : Mask → Mask) : Nat → Mask → Mask
  | 0, m => m
  | n + 1, m => iterOp f n (f m)

/-- cv2.morphologyEx with cv2.MORPH_CLOSE and n iterations: n dilations
followed by n erosions. -/
def morphCloseK (h w : Nat) (K : List (Int × Int)) (n : Nat) (m : Mask) : Mask :=
  iterOp (erodeK h w K) n (iterOp (dilateK h w K) n m)

/-- cv2.morphologyEx with cv2.MORPH_OPEN and n iterations: n erosions
followed by n dilations. -/
def morphOpenK (h w : Nat) (K : List (Int × Int)) (n : Nat) (m : Mask) : Mask :=
  iterOp (dilateK h w K) n (iterOp (erodeK h w K) n m)

/-- The initial binary mask built by _create_clean_mask: np.all of the
componentwise equality of the segmentation map against the target color. -/
def isolateColorMask (seg : SegMap) (color : Color) : Mask := fun r c =>
  ((seg r c).1 == color.1) && ((seg r c).2.1 == color.2.1) && ((seg r c).2.2 == color.2.2)

/-- Embeds FacialSegmentationProcessor._create_clean_mask: isolate the target
color, then close (3x3 ellipse, 2 iterations), open (3x3), close (5x5),
open (5x5), in that order. -/
def createCleanMask (h w : Nat) (seg : SegMap) (color : Color) : Mask :=
  morphOpenK h w kernel5 1
    (morphCloseK h w kernel5 1
      (morphOpenK h w kernel3 1
        (morphCloseK h w kernel3 2 (isolateColorMask seg color))))

/-- Modelled from the spec: isolateColor is a pixel-wise equality test of the
segmentation map against a target color. -/
def specIsolateColor (seg : SegMap) (color : Color) : Mask := fun r c =>
  decide (seg r c = color)

/-- Modelled from the spec: cleanMask is the sequence morphological close with
the small 3x3 elliptical kernel for 2 iterations, then open with the small
kernel, then close with the larger 5x5 elliptical kernel, then open with the
larger kernel, where an n-iteration close means n dilations followed by n
erosions as in the underlying library. -/
def specCleanMask (h w : Nat) (m : Mask) : Mask :=
  morphOpenK h w kernel5 1
    (morphCloseK h w kernel5 1
      (morphOpenK h w kernel3 1
        (morphCloseK h w kernel3 2 m)))

/-- C7: region-mask isolation and cleaning equals the reference definition:
the initial mask is foreground exactly where the segmentation map equals the
target color componentwise, and that mask is then transformed by exactly
close (3x3 ellipse, 2 iterations), open (3x3), close (5x5), open (5x5). -/
theorem createCleanMask_refines_spec (h w : Nat) (seg : SegMap) (color : Color) :
    createCleanMask h w seg color = specCleanMask h w (specIsolateColor seg color) ∧
    (∀ r c : Int, specIsolateColor seg color r c = true ↔ seg r c = color) ∧
    (∀ r c : Int, isolateColorMask seg color r c = true ↔ seg r c = color) := by
  have key : isolateColorMask seg color = specIsolateColor seg color := by
    funext r c
    rw [Bool.eq_iff_iff]
    simp only [isolateColorMask, specIsolateColor, Bool.and_eq_true, beq_iff_eq,
      decide_eq_true_eq, Prod.ext_iff]
    tauto
  refine ⟨?_, ?_, ?_⟩
  · rw [createCleanMask, specCleanMask, key]
  · intro r c
    simp [specIsolateColor]
  · intro r c
    rw [key]
    simp [specIsolateColor]

/-- Configuration of the face segmentation processor (SegmentationConfig).
Ratio fields hold numerator and denominator of the Python float defaults
(0.30, 0.65, 0.3, 0.8); band positions use floor division, matching int() on
the corresponding float products. The source stores 0.30 for the forehead
ratio and 0.3 for the ear search start: the same double value, so both are
30/100 here. -/
structure SegConfig where
  morphologyKernelSize : Nat := 5
  minRegionArea : Nat := 1
  foreheadNum : Nat := 30
  foreheadDen : Nat := 100
  faceWidthCenterNum : Nat := 65
  faceWidthCenterDen : Nat := 100
  earMinWidth : Nat := 20
  earStartNum : Nat := 30
  earStartDen : Nat := 100
  earEndNum : Nat := 80
  earEndDen : Nat := 100

def defaultSegConfig : SegConfig := {}

/-- Bounding box as returned by cv2.boundingRect on a contour: top-left
corner and size, all nonnegative. -/
structure BBox where
  x : Nat
  y : Nat
  w : Nat
  h : Nat

/-- Oracle for the contour-tracing library calls (cv2.findContours together
with max-by-cv2.contourArea selection, cv2.fillPoly and cv2.drawContours).
Each field stands for one usage pattern of the source; theorems that need a
geometric property of these calls (a traced-and-refilled largest contour
stays inside the rows and columns occupied by the input mask, which holds for
the library because the contour pixels belong to one connected component)
take that property as an explicit hypothesis. -/
structure ContourModel where
  largestContourBBox : Mask → BBox
  largestContourCentroid : Mask → Int × Int
  fillLargestContour : Mask → Mask
  fillLargestContourAboveMinArea : Mask → Mask
  removeSmallContours : Mask → Mask
  extractLargestContourPoints : Mask → List (Int × Int)

/-- Trivial oracle instance used by witnesses of oracle-quantified
theorems. -/
def trivialContourModel : ContourModel where
  largestContourBBox := fun _ => ⟨0, 0, 0, 0⟩
  largestContourCentroid := fun _ => (0, 0)
  fillLargestContour := fun m => m
  fillLargestContourAboveMinArea := fun m => m
  removeSmallContours := fun m => m
  extractLargestContourPoints := fun _ => []

/-- cv2.countNonZero over the h-by-w grid. -/
def countNonZero (h w : Nat) (m : Mask) : Nat :=
  ((List.range h).flatMap fun r =>
    (List.range w).filter fun c => m (Int.ofNat r) (Int.ofNat c)).length

/-- Embeds _analyze_face_contour: cv2.findContours yields a contour exactly
when the mask has a foreground pixel; the largest contour bounding box and
centroid come from the contour oracle. -/
def analyzeFaceContour (cv : ContourModel) (h w : Nat) (m : Mask) :
    Option (BBox × (Int × Int)) :=
  if 0 < countNonZero h w m then some (cv.largestContourBBox m, cv.largestContourCentroid m)
  else none

/-- Embeds _calculate_face_boundaries. The source also stores eye centers and
an eye level when at least 48 landmarks are present, but no consumer of the
returned dictionary reads those entries, so the embedding keeps the bounding
box and centroid. Fails with "No face contour found" when the mask has no
contour. -/
def calculateFaceBoundaries (cv : ContourModel) (h w : Nat) (m : Mask) :
    Except String (BBox × (Int × Int)) :=
  match analyzeFaceContour cv h w m with
  | none => Except.error "No face contour found"
  | some bd => Except.ok bd

/-- The forehead band height int(bbox.h * forehead_height_ratio). With the
default ratio this is the same expression as the ear search start offset,
which the forehead/ear disjointness rests on. -/
def foreheadHeight (cfg : SegConfig) (b : BBox) : Nat :=
  b.h * cfg.foreheadNum / cfg.foreheadDen

/-- Embeds _find_forehead_region: intersect the face mask with the top band
of the face bounding box (rows y to y + forehead_height, columns x to x + w,
clipped to the grid as numpy slicing does), then replace with the filled
largest contour when a contour exists. -/
def findForeheadRegion (cv : ContourModel) (cfg : SegConfig) (h w : Nat)
    (face : Mask) (b : BBox) : Mask :=
  let fh := foreheadHeight cfg b
  let band : Mask := fun r c =>
    decide ((b.y : Int) ≤ r ∧ r < min ((b.y + fh : Nat) : Int) (h : Int) ∧
      (b.x : Int) ≤ c ∧ c < min ((b.x + b.w : Nat) : Int) (w : Int))
  let fm : Mask := fun r c => face r c && band r c
  if 0 < countNonZero h w fm then cv.fillLargestContour fm else fm

/-- Row indices visited by range(start, stop, step) for a positive step. -/
def rangeStep (start stop step : Nat) : List Nat :=
  (List.range ((stop - start + step - 1) / step)).map fun i => start + step * i

/-- Column indices of the foreground pixels of one mask row (np.where over
the row profile), in increasing order. -/
def rowPixels (w : Nat) (m : Mask) (r : Int) : List Nat :=
  (List.range w).filter fun c => m r (c : Int)

/-- Embeds _analyze_face_profiles: every fifth row of the search band that
lies inside the grid and contains foreground contributes (leftmost column,
rightmost column, foreground pixel count). -/
def analyzeFaceProfiles (h w : Nat) (m : Mask) (startRow stopRow : Nat) :
    List (Nat × Nat × Nat) :=
  (rangeStep startRow stopRow 5).filterMap fun row =>
    if row < h then
      match rowPixels w m (row : Int) with
      | [] => none
      | c :: cs => some (c, (c :: cs).getLast (by simp), (c :: cs).length)
    else none

/-- The central face corridor of _find_ear_regions, from the sampled
profiles: integer averages (np.mean then int(), exact here for these
nonnegative integers), central width int(avg_width * 0.65 * 1.39) modelled by
the exact rational factor 9035/10000, and the symmetric margin. Returns the
pair (central_left, central_right). -/
def earCorridor (cfg : SegConfig) (profiles : List (Nat × Nat × Nat)) : Int × Int :=
  let n := profiles.length
  let avgLeft := (profiles.map fun p => p.1).sum / n
  let avgRight := (profiles.map fun p => p.2.1).sum / n
  let avgWidth := (profiles.map fun p => p.2.2).sum / n
  let centralWidth := avgWidth * (cfg.faceWidthCenterNum * 139) / (cfg.faceWidthCenterDen * 100)
  let centralMargin := (avgWidth - centralWidth) / 2
  ((avgLeft : Int) + (centralMargin : Int), (avgRight : Int) - (centralMargin : Int))

/-- The left-ear accumulation loop of _find_ear_regions as a mask: for each
row of the search band (stopping at the grid edge) whose leftmost face pixel
lies left of the corridor by at least ear_min_width, the columns from that
pixel up to (excluding) min(central_left, row_right + 1) are marked. -/
def leftEarMaskRaw (h w : Nat) (cfg : SegConfig) (m : Mask)
    (startRow stopRow : Nat) (centralLeft : Int) : Mask := fun r c =>
  if (startRow : Int) ≤ r ∧ r < min (stopRow : Int) (h : Int) then
    match (rowPixels w m r).head?, (rowPixels w m r).getLast? with
    | some rl, some rr =>
      decide ((rl : Int) < centralLeft ∧ (cfg.earMinWidth : Int) ≤ centralLeft - (rl : Int) ∧
        (rl : Int) ≤ c ∧ c < min centralLeft ((rr : Int) + 1))
    | _, _ => false
  else false

/-- The right-ear accumulation loop of _find_ear_regions as a mask: columns
from max(central_right, row_left) up to the rightmost face pixel of the row,
for rows whose rightmost face pixel lies right of the corridor by at least
ear_min_width. -/
def rightEarMaskRaw (h w : Nat) (cfg : SegConfig) (m : Mask)
    (startRow stopRow : Nat) (centralRight : Int) : Mask := fun r c =>
  if (startRow : Int) ≤ r ∧ r < min (stopRow : Int) (h : Int) then
    match (rowPixels w m r).head?, (rowPixels w m r).getLast? with
    | some rl, some rr =>
      decide (centralRight < (rr : Int) ∧ (cfg.earMinWidth : Int) ≤ (rr : Int) - centralRight ∧
        max centralRight (rl : Int) ≤ c ∧ c ≤ (rr : Int))
    | _, _ => false
  else false

/-- Embeds _clean_ear_mask: open with the 3x3 elliptical kernel, then keep
the filled largest contour when its area exceeds min_region_area (the oracle
field models find-largest plus the area test plus fillPoly, returning the
zero mask when the test fails) and the zero mask when no contour exists. -/
def cleanEarMask (cv : ContourModel) (h w : Nat) (m : Mask) : Mask :=
  let m2 := morphOpenK h w kernel3 1 m
  if 0 < countNonZero h w m2 then cv.fillLargestContourAboveMinArea m2 else zeroMask

def earSearchStart (cfg : SegConfig) (b : BBox) : Nat :=
  b.y + b.h * cfg.earStartNum / cfg.earStartDen

def earSearchStop (cfg : SegConfig) (b : BBox) : Nat :=
  b.y + b.h * cfg.earEndNum / cfg.earEndDen

/-- Embeds _find_ear_regions: analyze sampled profiles, return empty masks
when there are none, otherwise accumulate ear pixels outside the central
corridor and clean each ear mask. -/
def findEarRegions (cv : ContourModel) (cfg : SegConfig) (h w : Nat)
    (face : Mask) (b : BBox) : Mask × Mask :=
  let s := earSearchStart cfg b
  let e := earSearchStop cfg b
  let profiles := analyzeFaceProfiles h w face s e
  if profiles = [] then (zeroMask, zeroMask)
  else
    let corr := earCorridor cfg profiles
    (cleanEarMask cv h w (leftEarMaskRaw h w cfg face s e corr.1),
     cleanEarMask cv h w (rightEarMaskRaw h w cfg face s e corr.2))

/-- Embeds _clean_region_mask: empty masks pass through; otherwise close and
open with the configured elliptical kernel, then drop contours below
min_region_area (the removeSmallContours oracle) when any contour exists. -/
def cleanRegionMask (cv : ContourModel) (cfg : SegConfig) (h w : Nat) (m : Mask) : Mask :=
  if countNonZero h w m = 0 then m
  else
    let k := ellipseKernel cfg.morphologyKernelSize
    let m2 := morphOpenK h w k 1 (morphCloseK h w k 1 m)
    if 0 < countNonZero h w m2 then cv.removeSmallContours m2 else m2

/-- Embeds _create_chin_region: the face pixels of the rows from the mouth
level int(bbox.h * 0.66) below the box top down to the box bottom (clipped to
the grid), then cleaned with _clean_region_mask. -/
def createChinRegion (cv : ContourModel) (cfg : SegConfig) (h w : Nat)
    (face : Mask) (b : BBox) : Mask :=
  let mouthLevel := b.y + b.h * 66 / 100
  let raw : Mask := fun r c =>
    (decide (((max mouthLevel b.y : Nat) : Int) ≤ r ∧ r < min ((b.y + b.h : Nat) : Int) (h : Int) ∧
      0 ≤ c ∧ c < (w : Int))) && face r c
  cleanRegionMask cv cfg h w raw

/-- cv2.subtract on 0/255 masks: keep the foreground not present in the
subtrahend (uint8 saturating subtraction restricted to these two values). -/
def maskSub (a b : Mask) : Mask := fun r c => a r c && !(b r c)

/-- The four sub-masks produced by _subdivide_main_face_region, with their
region numbers: forehead 1, left ear 7, right ear 6, chin 4. -/
structure Subdivisions where
  forehead : Mask
  leftEar : Mask
  rightEar : Mask
  chin : Mask

/-- Embeds _subdivide_main_face_region: compute boundaries (failing when the
mask has no contour), carve forehead and ears, subtract them from the main
mask, carve the chin from that residual, and finish the residual with one
3x3 open. The landmark list the source threads through is only consumed by
the unused boundary entries, so it is not a parameter here. -/
def subdivideMainFaceRegion (cv : ContourModel) (cfg : SegConfig) (h w : Nat)
    (region1 : Mask) : Except String (Subdivisions × Mask) :=
  match calculateFaceBoundaries cv h w region1 with
  | Except.error e => Except.error e
  | Except.ok bd =>
    let b := bd.1
    let forehead := findForeheadRegion cv cfg h w region1 b
    let ears := findEarRegions cv cfg h w region1 b
    let mainFace0 := maskSub (maskSub (maskSub region1 forehead) ears.1) ears.2
    let chin := createChinRegion cv cfg h w mainFace0 b
    let mainFace := morphOpenK h w kernel3 1 mainFace0
    Except.ok (⟨forehead, ears.1, ears.2, chin⟩, mainFace)

theorem morphOpenK_one (h w : Nat) (K : List (Int × Int)) (m : Mask) :
    morphOpenK h w K 1 m = dilateK h w K (erodeK h w K m) := rfl

/-- Opening with one iteration is anti-extensive on in-bounds pixels. -/
theorem morphOpenK_subset {h w : Nat} {K : List (Int × Int)} {m : Mask} {r c : Int}
    (hin : inBounds h w r c = true) (hm : morphOpenK h w K 1 m r c = true) :
    m r c = true := by
  rw [morphOpenK_one, dilateK, List.any_eq_true] at hm
  obtain ⟨d, hd, hc⟩ := hm
  rw [Bool.and_eq_true] at hc
  obtain ⟨hb, he⟩ := hc
  rw [erodeK, List.all_eq_true] at he
  have := he d hd
  rw [Bool.or_eq_true] at this
  rcases this with hnb | hmm
  · rw [sub_add_cancel, sub_add_cancel, hin] at hnb
    simp at hnb
  · rwa [sub_add_cancel, sub_add_cancel] at hmm

theorem countNonZero_pos_iff {h w : Nat} {m : Mask} :
    0 < countNonZero h w m ↔ ∃ r < h, ∃ c < w, m (r : Int) (c : Int) = true := by
  rw [countNonZero, List.length_pos_iff_exists_mem]
  constructor
  · rintro ⟨x, hx⟩
    rw [List.mem_flatMap] at hx
    obtain ⟨r, hr, hx⟩ := hx
    rw [List.mem_filter] at hx
    exact ⟨r, List.mem_range.1 hr, x, List.mem_range.1 hx.1, hx.2⟩
  · rintro ⟨r, hr, c, hc, hm⟩
    refine ⟨c, List.mem_flatMap.2 ⟨r, List.mem_range.2 hr, ?_⟩⟩
    exact List.mem_filter.2 ⟨List.mem_range.2 hc, hm⟩

theorem rowPixels_pairwise (w : Nat) (m : Mask) (r : Int) :
    (rowPixels w m r).Pairwise (· < ·) :=
  (List.pairwise_lt_range w).filter _

theorem pairwise_head_le {l : List Nat} (hl : l.Pairwise (· < ·)) (hne : l ≠ []) :
    ∀ y ∈ l, l.head hne ≤ y := by
  cases l with
  | nil => exact absurd rfl hne
  | cons a t =>
    intro y hy
    rcases List.mem_cons.1 hy with rfl | hy
    · exact Nat.le_refl _
    · exact Nat.le_of_lt ((List.pairwise_cons.1 hl).1 y hy)

theorem pairwise_le_getLast {l : List Nat} (hl : l.Pairwise (· < ·)) (hne : l ≠ []) :
    ∀ y ∈ l, y ≤ l.getLast hne := by
  induction l with
  | nil => exact absurd rfl hne
  | cons a t ih =>
    intro y hy
    cases t with
    | nil =>
      rcases List.mem_cons.1 hy with rfl | hy
      · exact Nat.le_refl _
      · simp at hy
    | cons b t2 =>
      rw [List.getLast_cons (by simp)]
      obtain ⟨ha, ht⟩ := List.pairwise_cons.1 hl
      rcases List.mem_cons.1 hy with rfl | hy
      · exact Nat.le_of_lt (ha _ (List.getLast_mem (by simp)))
      · exact ih ht (by simp) y hy

theorem pairwise_length_le {l : List Nat} (hl : l.Pairwise (· < ·)) (hne : l ≠ []) :
    l.length ≤ l.getLast hne - l.head hne + 1 := by
  induction l with
  | nil => exact absurd rfl hne
  | cons a t ih =>
    cases t with
    | nil => simp
    | cons b t2 =>
      have hne2 : (b :: t2) ≠ [] := by simp
      obtain ⟨ha, ht⟩ := List.pairwise_cons.1 hl
      have hab : a < b := ha b (by simp)
      have hbl : b ≤ (b :: t2).getLast hne2 :=
        pairwise_le_getLast ht hne2 b (by simp)
      have hrec := ih ht hne2
      have hlast : (a :: b :: t2).getLast hne = (b :: t2).getLast hne2 :=
        List.getLast_cons hne2
      rw [hlast]
      simp only [List.length_cons, List.head_cons] at hrec ⊢
      omega

/-- Every sampled profile satisfies: leftmost at most rightmost, at least one
pixel, and pixel count at most the span length. -/
theorem profile_mem_facts {h w : Nat} {m : Mask} {s e : Nat} {p : Nat × Nat × Nat}
    (hp : p ∈ analyzeFaceProfiles h w m s e) :
    p.1 ≤ p.2.1 ∧ 1 ≤ p.2.2 ∧ p.2.2 ≤ p.2.1 - p.1 + 1 := by
  rw [analyzeFaceProfiles] at hp
  obtain ⟨row, hrow, hsome⟩ := List.mem_filterMap.1 hp
  by_cases hrh : row < h
  · rw [if_pos hrh] at hsome
    rcases hl : rowPixels w m (row : Int) with _ | ⟨c, cs⟩
    · rw [hl] at hsome
      simp at hsome
    · rw [hl] at hsome
      have hpw : (c :: cs).Pairwise (· < ·) := by
        rw [← hl]
        exact rowPixels_pairwise w m (row : Int)
      have hne : (c :: cs) ≠ [] := by simp
      have hhead : (c :: cs).head hne = c := rfl
      have h1 : c ≤ (c :: cs).getLast hne := by
        have := pairwise_head_le hpw hne ((c :: cs).getLast hne) (List.getLast_mem hne)
        simpa [hhead] using this
      have h2 : (c :: cs).length ≤ (c :: cs).getLast hne - c + 1 := by
        have := pairwise_length_le hpw hne
        simpa [hhead] using this
      cases hsome
      exact ⟨h1, by simp, h2⟩
  · rw [if_neg hrh] at hsome
    simp at hsome

theorem sum_map_add_nat {α : Type} (l : List α) (f g : α → Nat) :
    (l.map fun x => f x + g x).sum = (l.map f).sum + (l.map g).sum := by
  induction l with
  | nil => simp
  | cons a t ih => simp [ih]; omega

theorem sum_map_one_nat {α : Type} (l : List α) :
    (l.map fun _ => (1 : Nat)).sum = l.length := by
  induction l with
  | nil => simp
  | cons a t ih =>
    simp [ih]
    omega

/-- The central corridor is well ordered: central_left is never to the right
of central_right. This is what makes the left and right ear masks disjoint. -/
theorem earCorridor_le {profiles : List (Nat × Nat × Nat)} (hne : profiles ≠ [])
    (hfacts : ∀ p ∈ profiles, p.1 ≤ p.2.1 ∧ 1 ≤ p.2.2 ∧ p.2.2 ≤ p.2.1 - p.1 + 1) :
    (earCorridor defaultSegConfig profiles).1 ≤ (earCorridor defaultSegConfig profiles).2 := by
  have hn : 0 < profiles.length := List.length_pos.2 hne
  have hSl_le_Sr : (profiles.map fun p => p.1).sum ≤ (profiles.map fun p => p.2.1).sum :=
    List.sum_le_sum fun p hp => (hfacts p hp).1
  have hSlw : (profiles.map fun p => p.1).sum + (profiles.map fun p => p.2.2).sum ≤
      (profiles.map fun p => p.2.1).sum + profiles.length := by
    have hpt : (profiles.map fun p => p.1 + p.2.2).sum ≤
        (profiles.map fun p => p.2.1 + 1).sum := by
      refine List.sum_le_sum fun p hp => ?_
      obtain ⟨f1, f2, f3⟩ := hfacts p hp
      omega
    rw [sum_map_add_nat, sum_map_add_nat, sum_map_one_nat] at hpt
    exact hpt
  simp only [earCorridor, defaultSegConfig]
  set n := profiles.length with hn_def
  set Sl := (profiles.map fun p => p.1).sum with hSl_def
  set Sr := (profiles.map fun p => p.2.1).sum with hSr_def
  set Sw := (profiles.map fun p => p.2.2).sum with hSw_def
  have hkey : Sl / n + Sw / n ≤ Sr / n + 1 := by
    have h1 : Sl / n + Sw / n ≤ (Sl + Sw) / n := by
      rw [Nat.le_div_iff_mul_le hn]
      calc (Sl / n + Sw / n) * n = Sl / n * n + Sw / n * n := by ring
      _ ≤ Sl + Sw := Nat.add_le_add (Nat.div_mul_le_self _ _) (Nat.div_mul_le_self _ _)
    calc Sl / n + Sw / n ≤ (Sl + Sw) / n := h1
    _ ≤ (Sr + n) / n := Nat.div_le_div_right hSlw
    _ = Sr / n + 1 := Nat.add_div_right _ hn
  have hmono : Sl / n ≤ Sr / n := Nat.div_le_div_right hSl_le_Sr
  set al := Sl / n with hal
  set ar := Sr / n with har
  set aw := Sw / n with haw
  omega

/-- Support bound assumed of the contour oracle fields that refill a largest
contour: every output pixel lies in a row and in a column already occupied by
the input mask. This holds for cv2.findContours followed by cv2.fillPoly of
the largest contour because the traced contour bounds one connected
component, and every row and every column of a connected component's
bounding box contains a component pixel. -/
def rowColContained (h w : Nat) (f : Mask → Mask) : Prop :=
  ∀ m : Mask, ∀ r c : Int, inBounds h w r c = true → f m r c = true →
    (∃ c2 : Int, 0 ≤ c2 ∧ c2 < (w : Int) ∧ m r c2 = true) ∧
    (∃ r2 : Int, 0 ≤ r2 ∧ r2 < (h : Int) ∧ m r2 c = true)

theorem rowColContained_id (h w : Nat) : rowColContained h w fun m => m := by
  intro m r c hin hm
  rw [inBounds, decide_eq_true_eq] at hin
  exact ⟨⟨c, hin.2.2.1, hin.2.2.2, hm⟩, ⟨r, hin.1, hin.2.1, hm⟩⟩

theorem leftEarMaskRaw_bounds {h w : Nat} {cfg : SegConfig} {m : Mask}
    {s e : Nat} {cl : Int} {r c : Int}
    (hm : leftEarMaskRaw h w cfg m s e cl r c = true) :
    (s : Int) ≤ r ∧ c < cl := by
  rw [leftEarMaskRaw] at hm
  split at hm
  case isTrue hcond =>
    split at hm
    case h_1 rl rr heq1 heq2 =>
      rw [decide_eq_true_eq] at hm
      exact ⟨hcond.1, lt_of_lt_of_le hm.2.2.2 (min_le_left _ _)⟩
    case h_2 => simp at hm
  case isFalse => simp at hm

theorem rightEarMaskRaw_bounds {h w : Nat} {cfg : SegConfig} {m : Mask}
    {s e : Nat} {cr : Int} {r c : Int}
    (hm : rightEarMaskRaw h w cfg m s e cr r c = true) :
    (s : Int) ≤ r ∧ cr ≤ c := by
  rw [rightEarMaskRaw] at hm
  split at hm
  case isTrue hcond =>
    split at hm
    case h_1 rl rr heq1 heq2 =>
      rw [decide_eq_true_eq] at hm
      exact ⟨hcond.1, le_trans (le_max_left _ _) hm.2.2.1⟩
    case h_2 => simp at hm
  case isFalse => simp at hm

theorem cleanEarMask_bounds {cv : ContourModel} {h w : Nat} {m : Mask}
    (hcv : rowColContained h w cv.fillLargestContourAboveMinArea)
    {r c : Int} (hin : inBounds h w r c = true)
    (hm : cleanEarMask cv h w m r c = true) :
    (∃ c2 : Int, 0 ≤ c2 ∧ c2 < (w : Int) ∧ m r c2 = true) ∧
    (∃ r2 : Int, 0 ≤ r2 ∧ r2 < (h : Int) ∧ m r2 c = true) := by
  rw [cleanEarMask] at hm
  simp only [ite_apply] at hm
  split at hm
  · obtain ⟨⟨c2, hc0, hcw, hc⟩, ⟨r2, hr0, hrh, hr⟩⟩ := hcv _ r c hin hm
    rw [inBounds, decide_eq_true_eq] at hin
    have hin2 : inBounds h w r c2 = true := by
      rw [inBounds, decide_eq_true_eq]
      exact ⟨hin.1, hin.2.1, hc0, hcw⟩
    have hin3 : inBounds h w r2 c = true := by
      rw [inBounds, decide_eq_true_eq]
      exact ⟨hr0, hrh, hin.2.2.1, hin.2.2.2⟩
    exact ⟨⟨c2, hc0, hcw, morphOpenK_subset hin2 hc⟩,
           ⟨r2, hr0, hrh, morphOpenK_subset hin3 hr⟩⟩
  · simp [zeroMask] at hm

theorem findForeheadRegion_row_bounds {cv : ContourModel} {cfg : SegConfig}
    {h w : Nat} {face : Mask} {b : BBox}
    (hcv : rowColContained h w cv.fillLargestContour)
    {r c : Int} (hin : inBounds h w r c = true)
    (hm : findForeheadRegion cv cfg h w face b r c = true) :
    r < ((b.y + foreheadHeight cfg b : Nat) : Int) := by
  rw [findForeheadRegion] at hm
  simp only [ite_apply] at hm
  split at hm
  · obtain ⟨⟨c2, hc0, hcw, hc⟩, _⟩ := hcv _ r c hin hm
    simp only [Bool.and_eq_true, decide_eq_true_eq] at hc
    exact lt_of_lt_of_le hc.2.2.1 (min_le_left _ _)
  · simp only [Bool.and_eq_true, decide_eq_true_eq] at hm
    exact lt_of_lt_of_le hm.2.2.1 (min_le_left _ _)

theorem findEarRegions_facts {cv : ContourModel} {h w : Nat} (face : Mask) (b : BBox)
    (hcv : rowColContained h w cv.fillLargestContourAboveMinArea)
    (r c : Int) (hin : inBounds h w r c = true) :
    ((findEarRegions cv defaultSegConfig h w face b).1 r c = true →
      ((earSearchStart defaultSegConfig b : Nat) : Int) ≤ r) ∧
    ((findEarRegions cv defaultSegConfig h w face b).2 r c = true →
      ((earSearchStart defaultSegConfig b : Nat) : Int) ≤ r) ∧
    ¬((findEarRegions cv defaultSegConfig h w face b).1 r c = true ∧
      (findEarRegions cv defaultSegConfig h w face b).2 r c = true) := by
  by_cases hp : analyzeFaceProfiles h w face (earSearchStart defaultSegConfig b)
      (earSearchStop defaultSegConfig b) = []
  · simp [findEarRegions, hp, zeroMask]
  · have hfacts : ∀ p ∈ analyzeFaceProfiles h w face (earSearchStart defaultSegConfig b)
        (earSearchStop defaultSegConfig b),
        p.1 ≤ p.2.1 ∧ 1 ≤ p.2.2 ∧ p.2.2 ≤ p.2.1 - p.1 + 1 :=
      fun p hp2 => profile_mem_facts hp2
    have hcorr := earCorridor_le hp hfacts
    simp only [findEarRegions, hp, if_neg, if_false]
    refine ⟨?_, ?_, ?_⟩
    · intro hl
      obtain ⟨⟨c2, _, _, hc⟩, _⟩ := cleanEarMask_bounds hcv hin hl
      exact (leftEarMaskRaw_bounds hc).1
    · intro hr
      obtain ⟨⟨c2, _, _, hc⟩, _⟩ := cleanEarMask_bounds hcv hin hr
      exact (rightEarMaskRaw_bounds hc).1
    · rintro ⟨hl, hr⟩
      obtain ⟨_, ⟨r2, _, _, hlc⟩⟩ := cleanEarMask_bounds hcv hin hl
      obtain ⟨_, ⟨r3, _, _, hrc⟩⟩ := cleanEarMask_bounds hcv hin hr
      have h1 := (leftEarMaskRaw_bounds hlc).2
      have h2 := (rightEarMaskRaw_bounds hrc).2
      omega

/-- C2: for every binary main-face mask with at least one foreground pixel,
subdivision succeeds, and the four produced masks, forehead, left ear, right
ear, and residual main face, are pairwise disjoint on the grid: no pixel is
foreground in more than one of them. The oracle hypotheses state the support
bound of the library contour-filling calls. -/
theorem subdivide_submasks_disjoint (cv : ContourModel) (h w : Nat) (face : Mask)
    (hfill : rowColContained h w cv.fillLargestContour)
    (hfillMin : rowColContained h w cv.fillLargestContourAboveMinArea)
    (hne : ∃ r < h, ∃ c < w, face (r : Int) (c : Int) = true) :
    (∃ res, subdivideMainFaceRegion cv defaultSegConfig h w face = Except.ok res) ∧
    (∀ subs mainFace,
      subdivideMainFaceRegion cv defaultSegConfig h w face = Except.ok (subs, mainFace) →
      ∀ r c : Int, inBounds h w r c = true →
        ¬(subs.forehead r c = true ∧ subs.leftEar r c = true) ∧
        ¬(subs.forehead r c = true ∧ subs.rightEar r c = true) ∧
        ¬(subs.leftEar r c = true ∧ subs.rightEar r c = true) ∧
        ¬(subs.forehead r c = true ∧ mainFace r c = true) ∧
        ¬(subs.leftEar r c = true ∧ mainFace r c = true) ∧
        ¬(subs.rightEar r c = true ∧ mainFace r c = true)) := by
  have hcnt : 0 < countNonZero h w face := countNonZero_pos_iff.2 hne
  have hok : subdivideMainFaceRegion cv defaultSegConfig h w face =
      Except.ok
        (⟨findForeheadRegion cv defaultSegConfig h w face (cv.largestContourBBox face),
          (findEarRegions cv defaultSegConfig h w face (cv.largestContourBBox face)).1,
          (findEarRegions cv defaultSegConfig h w face (cv.largestContourBBox face)).2,
          createChinRegion cv defaultSegConfig h w
            (maskSub (maskSub (maskSub face
              (findForeheadRegion cv defaultSegConfig h w face (cv.largestContourBBox face)))
              ((findEarRegions cv defaultSegConfig h w face (cv.largestContourBBox face)).1))
              ((findEarRegions cv defaultSegConfig h w face (cv.largestContourBBox face)).2))
            (cv.largestContourBBox face)⟩,
         morphOpenK h w kernel3 1
            (maskSub (maskSub (maskSub face
              (findForeheadRegion cv defaultSegConfig h w face (cv.largestContourBBox face)))
              ((findEarRegions cv defaultSegConfig h w face (cv.largestContourBBox face)).1))
              ((findEarRegions cv defaultSegConfig h w face (cv.largestContourBBox face)).2))) := by
    rw [subdivideMainFaceRegion, calculateFaceBoundaries, analyzeFaceContour, if_pos hcnt]
  refine ⟨⟨_, hok⟩, ?_⟩
  intro subs mainFace hok2
  rw [hok] at hok2
  injection hok2 with hok3
  injection hok3 with hsubs hmain
  intro r c hin
  have hstart_eq : (cv.largestContourBBox face).y +
      foreheadHeight defaultSegConfig (cv.largestContourBBox face) =
      earSearchStart defaultSegConfig (cv.largestContourBBox face) := by
    simp [foreheadHeight, earSearchStart, defaultSegConfig]
  have hefacts := findEarRegions_facts face (cv.largestContourBBox face)
    hfillMin r c hin
  have hforeRow : findForeheadRegion cv defaultSegConfig h w face
      (cv.largestContourBBox face) r c = true →
      r < (((cv.largestContourBBox face).y +
        foreheadHeight defaultSegConfig (cv.largestContourBBox face) : Nat) : Int) :=
    fun hf => findForeheadRegion_row_bounds hfill hin hf
  have hmainSub : morphOpenK h w kernel3 1
      (maskSub (maskSub (maskSub face
        (findForeheadRegion cv defaultSegConfig h w face (cv.largestContourBBox face)))
        ((findEarRegions cv defaultSegConfig h w face (cv.largestContourBBox face)).1))
        ((findEarRegions cv defaultSegConfig h w face (cv.largestContourBBox face)).2)) r c = true →
      face r c = true ∧
      findForeheadRegion cv defaultSegConfig h w face (cv.largestContourBBox face) r c = false ∧
      (findEarRegions cv defaultSegConfig h w face (cv.largestContourBBox face)).1 r c = false ∧
      (findEarRegions cv defaultSegConfig h w face (cv.largestContourBBox face)).2 r c = false := by
    intro hm
    have h0 := morphOpenK_subset hin hm
    simp only [maskSub, Bool.and_eq_true, Bool.not_eq_true'] at h0
    exact ⟨h0.1.1.1, h0.1.1.2, h0.1.2, h0.2⟩
  rw [← hsubs, ← hmain]
  dsimp only
  refine ⟨?_, ?_, hefacts.2.2, ?_, ?_, ?_⟩
  · rintro ⟨hf, hl⟩
    have h1 := hforeRow hf
    have h2 := hefacts.1 hl
    omega
  · rintro ⟨hf, hr2⟩
    have h1 := hforeRow hf
    have h2 := hefacts.2.1 hr2
    omega
  · rintro ⟨hf, hm⟩
    rw [(hmainSub hm).2.1] at hf
    simp at hf
  · rintro ⟨hl, hm⟩
    rw [(hmainSub hm).2.2.1] at hl
    simp at hl
  · rintro ⟨hr2, hm⟩
    rw [(hmainSub hm).2.2.2] at hr2
    simp at hr2

/-- C2 witness data: 3-by-3 mask with a single foreground pixel. -/
def faceC2 : Mask := fun r c => decide (r = 1 ∧ c = 1)

theorem subdivide_submasks_disjoint_witness :
    ∃ res, subdivideMainFaceRegion trivialContourModel defaultSegConfig 3 3 faceC2 =
      Except.ok res :=
  (subdivide_submasks_disjoint trivialContourModel 3 3 faceC2
    (rowColContained_id 3 3) (rowColContained_id 3 3)
    ⟨1, by omega, 1, by omega, by decide⟩).1

/-- Embeds _extract_contour_points: cv2.findContours yields no contour on an
empty mask; otherwise the point list of the largest contour comes from the
contour oracle. -/
def extractContourPoints (cv : ContourModel) (h w : Nat) (m : Mask) : List (Int × Int) :=
  if 0 < countNonZero h w m then cv.extractLargestContourPoints m else []

/-- The while-loop padding plus assignment used when merging region contours:
append empty lists until index rid exists, then overwrite index rid. -/
def setPadded (l : List (List (Int × Int))) (rid : Nat) (v : List (Int × Int)) :
    List (List (Int × Int)) :=
  (l ++ List.replicate (rid + 1 - l.length) []).set rid v

/-- The subdivisions iterated by _process_subdivided_regions, in the
insertion order of the source dictionary, with their region numbers. -/
def subdivisionEntries (s : Subdivisions) : List (Mask × Nat) :=
  [(s.forehead, 1), (s.leftEar, 7), (s.rightEar, 6), (s.chin, 4)]

/-- The subdivision half of _process_subdivided_regions: skip sub-masks with
pixel count below min_region_area, extract contour points, and store a
nonempty point list at the index given by the region number. The overlay and
number stamping only touch the raster result and are not modelled. -/
def mergeSubdivisionContours (cv : ContourModel) (cfg : SegConfig) (h w : Nat)
    (s : Subdivisions) : List (List (Int × Int)) :=
  (subdivisionEntries s).foldl
    (fun acc e =>
      if countNonZero h w e.1 < cfg.minRegionArea then acc
      else
        let pts := extractContourPoints cv h w e.1
        if pts = [] then acc else setPadded acc e.2 pts)
    []

inductive EyeSide
  | left
  | right
  | center

/-- Embeds draw_u_shaped_eye_mask: an all-zero height-by-width mask on which
cv2.ellipse draws the filled 0-to-180 degree (bottom half) elliptical sector
with center (center_x, int(0.5 * height)) and axes (width // 16,
height // 20). center_x is width // 3 for the left variant, int(width * 0.68)
for the right variant (exact rational model of the float product) and
width // 2 otherwise. The rasterized sector is modelled as the ideal filled
half-ellipse region. -/
def drawUShapedEyeMask (w h : Nat) (pos : EyeSide) : Mask :=
  let centerY : Int := ((h / 2 : Nat) : Int)
  let centerX : Int :=
    match pos with
    | EyeSide.left => ((w / 3 : Nat) : Int)
    | EyeSide.right => ((w * 68 / 100 : Nat) : Int)
    | EyeSide.center => ((w / 2 : Nat) : Int)
  let a : Int := ((w / 16 : Nat) : Int)
  let b : Int := ((h / 20 : Nat) : Int)
  fun r c =>
    decide (centerY ≤ r ∧
      b ^ 2 * (c - centerX) ^ 2 + a ^ 2 * (r - centerY) ^ 2 ≤ a ^ 2 * b ^ 2)

/-- The loop body of _process_additional_regions for one enumerated potential
color (index, color): skip regions below min_region_area; at index 4 (the
nose, marked visible with region number 5) store the extracted contour of the
cleaned color mask; at indices 2 and 3 (the eye regions) store the contour
extracted from the synthetic under-eye mask instead; all other indices store
nothing. -/
def additionalRegionStep (cv : ContourModel) (cfg : SegConfig) (h w : Nat) (seg : SegMap)
    (acc : List (Nat × List (Int × Int))) (e : Nat × Color) :
    List (Nat × List (Int × Int)) :=
  let mask := createCleanMask h w seg e.2
  if countNonZero h w mask < cfg.minRegionArea then acc
  else if e.1 = 4 then
    let pts := extractContourPoints cv h w mask
    if pts = [] then acc else acc ++ [(5, pts)]
  else if e.1 = 2 ∨ e.1 = 3 then
    let m2 := drawUShapedEyeMask w h (if e.1 = 2 then EyeSide.left else EyeSide.right)
    let pts := extractContourPoints cv h w m2
    if pts = [] then acc else acc ++ [(e.1, pts)]
  else acc

/-- Embeds _process_additional_regions restricted to the contour data it
returns (regions_data); the overlays and number stamping only touch the
raster result. Iteration is python enumerate over the potential colors. -/
def processAdditionalRegions (cv : ContourModel) (cfg : SegConfig) (h w : Nat)
    (seg : SegMap) (uniqueColorsList : List Color) (region1 : Color) :
    List (Nat × List (Int × Int)) :=
  ((potentialColors uniqueColorsList region1).enum).foldl
    (additionalRegionStep cv cfg h w seg) []

/-- Embeds _process_subdivided_regions (contour data; the raster result is
omitted): find the first non-black color; when none exists return the empty
contour list without error; otherwise clean the main mask, subdivide
(propagating the "No face contour found" error), merge the subdivision
contours, then merge the additional region entries the same way. -/
def processSubdividedRegions (cv : ContourModel) (cfg : SegConfig) (h w : Nat)
    (seg : SegMap) : Except String (List (List (Int × Int))) :=
  let uc := getUniqueColors h w seg
  match uc.find? fun c => decide (c ≠ blackColor) with
  | none => Except.ok []
  | some c1 =>
    match subdivideMainFaceRegion cv cfg h w (createCleanMask h w seg c1) with
    | Except.error e => Except.error e
    | Except.ok sm =>
      let contours := mergeSubdivisionContours cv cfg h w sm.1
      let extra := processAdditionalRegions cv cfg h w seg uc c1
      Except.ok (extra.foldl (fun acc e => setPadded acc e.1 e.2) contours)

/-- All-black 2-by-2 segmentation map. -/
def segAllBlack : SegMap := fun _ _ => (0, 0, 0)

/-- C3 counterexample: on a segmentation map with no non-background color at
all, the subdivision stage returns an empty contour list and raises no error,
refuting the claim that every segmentation map whose main-face mask has no
detectable contour makes the subdivision raise a no-face-region error. -/
theorem processSubdividedRegions_silent_empty_cex :
    processSubdividedRegions trivialContourModel defaultSegConfig 2 2 segAllBlack =
      Except.ok [] := by
  rfl

/-- C3 amended: when a non-black color is present but its cleaned main-face
mask has no foreground pixel (hence no contour), the subdivision stage fails
with the "No face contour found" error; when no non-background color is
present it silently returns an empty contour list instead of raising. -/
theorem processSubdividedRegions_error_amended :
    (∀ (cv : ContourModel) (cfg : SegConfig) (h w : Nat) (seg : SegMap) (c1 : Color),
      firstNonBlackColor h w seg = some c1 →
      countNonZero h w (createCleanMask h w seg c1) = 0 →
      processSubdividedRegions cv cfg h w seg = Except.error "No face contour found") ∧
    (∀ (cv : ContourModel) (cfg : SegConfig) (h w : Nat) (seg : SegMap),
      firstNonBlackColor h w seg = none →
      processSubdividedRegions cv cfg h w seg = Except.ok []) := by
  constructor
  · intro cv cfg h w seg c1 hc1 hcnt
    rw [firstNonBlackColor] at hc1
    simp only [processSubdividedRegions, hc1]
    rw [subdivideMainFaceRegion, calculateFaceBoundaries, analyzeFaceContour, hcnt]
    simp
  · intro cv cfg h w seg hc
    rw [firstNonBlackColor] at hc
    simp only [processSubdividedRegions, hc]

/-- A 5-by-5 segmentation map with one isolated non-black pixel; the opening
step of the mask cleaning erases it, leaving an empty cleaned mask. -/
def segC3 : SegMap := fun r c => if r = 2 ∧ c = 2 then (9, 9, 9) else (0, 0, 0)


/-- Pointwise equality of two masks on the h-by-w grid. -/
def maskEqOn (h w : Nat) (a b : Mask) : Prop :=
  ∀ r, r < h → ∀ c, c < w → a (r : Int) (c : Int) = b (r : Int) (c : Int)

theorem maskEqOn_apply {h w : Nat} {a b : Mask} (hab : maskEqOn h w a b)
    {r c : Int} (hin : inBounds h w r c = true) : a r c = b r c := by
  rw [inBounds, decide_eq_true_eq] at hin
  obtain ⟨h1, h2, h3, h4⟩ := hin
  have := hab r.toNat (by omega) c.toNat (by omega)
  rwa [Int.toNat_of_nonneg h1, Int.toNat_of_nonneg h3] at this

theorem maskEqOn_trans {h w : Nat} {a b c : Mask} (h1 : maskEqOn h w a b)
    (h2 : maskEqOn h w b c) : maskEqOn h w a c := by
  intro r hr k hk
  rw [h1 r hr k hk, h2 r hr k hk]

theorem list_any_congr {α : Type} {l : List α} {f g : α → Bool}
    (h : ∀ x ∈ l, f x = g x) : l.any f = l.any g := by
  induction l with
  | nil => rfl
  | cons a t ih =>
    simp only [List.any_cons]
    rw [h a (by simp), ih fun x hx => h x (by simp [hx])]

theorem list_all_congr {α : Type} {l : List α} {f g : α → Bool}
    (h : ∀ x ∈ l, f x = g x) : l.all f = l.all g := by
  induction l with
  | nil => rfl
  | cons a t ih =>
    simp only [List.all_cons]
    rw [h a (by simp), ih fun x hx => h x (by simp [hx])]

theorem dilateK_congrOn {h w : Nat} {K : List (Int × Int)} {a b : Mask}
    (hab : maskEqOn h w a b) : maskEqOn h w (dilateK h w K a) (dilateK h w K b) := by
  intro r hr c hc
  simp only [dilateK]
  refine list_any_congr fun d _ => ?_
  by_cases hin : inBounds h w ((r : Int) - d.1) ((c : Int) - d.2) = true
  · rw [hin, maskEqOn_apply hab hin]
  · rw [Bool.not_eq_true] at hin
    rw [hin]
    simp

theorem erodeK_congrOn {h w : Nat} {K : List (Int × Int)} {a b : Mask}
    (hab : maskEqOn h w a b) : maskEqOn h w (erodeK h w K a) (erodeK h w K b) := by
  intro r hr c hc
  simp only [erodeK]
  refine list_all_congr fun d _ => ?_
  by_cases hin : inBounds h w ((r : Int) + d.1) ((c : Int) + d.2) = true
  · rw [hin, maskEqOn_apply hab hin]
  · rw [Bool.not_eq_true] at hin
    rw [hin]
    simp

theorem iterOp_congrOn {h w : Nat} {f g : Mask → Mask}
    (hfg : ∀ a b, maskEqOn h w a b → maskEqOn h w (f a) (g b)) (n : Nat) :
    ∀ a b, maskEqOn h w a b → maskEqOn h w (iterOp f n a) (iterOp g n b) := by
  induction n with
  | zero => exact fun a b hab => hab
  | succ k ih =>
    intro a b hab
    exact ih (f a) (g b) (hfg a b hab)

theorem morphCloseK_congrOn {h w : Nat} {K : List (Int × Int)} {n : Nat} {a b : Mask}
    (hab : maskEqOn h w a b) :
    maskEqOn h w (morphCloseK h w K n a) (morphCloseK h w K n b) := by
  exact iterOp_congrOn (fun x y hxy => erodeK_congrOn hxy) n _ _
    (iterOp_congrOn (fun x y hxy => dilateK_congrOn hxy) n _ _ hab)

theorem morphOpenK_congrOn {h w : Nat} {K : List (Int × Int)} {n : Nat} {a b : Mask}
    (hab : maskEqOn h w a b) :
    maskEqOn h w (morphOpenK h w K n a) (morphOpenK h w K n b) := by
  exact iterOp_congrOn (fun x y hxy => dilateK_congrOn hxy) n _ _
    (iterOp_congrOn (fun x y hxy => erodeK_congrOn hxy) n _ _ hab)

theorem countNonZero_congrOn {h w : Nat} {a b : Mask} (hab : maskEqOn h w a b) :
    countNonZero h w a = countNonZero h w b := by
  rw [countNonZero, countNonZero]
  congr 1
  refine List.flatMap_congr fun r hr => ?_
  refine List.filter_congr fun c hc => ?_
  exact hab r (List.mem_range.1 hr) c (List.mem_range.1 hc)

/-- The isolated center pixel of segC3 as an explicit table mask. -/
def maskCenter5 : Mask := fun r c => decide (r = 2 ∧ c = 2)

/-- The cleaned mask of the only non-black color of segC3 is empty: the
isolated pixel survives the 3x3 closing but the 3x3 opening erases it. -/
theorem segC3_clean_empty :
    countNonZero 5 5 (createCleanMask 5 5 segC3 (9, 9, 9)) = 0 := by
  have s0 : maskEqOn 5 5 (isolateColorMask segC3 (9, 9, 9)) maskCenter5 := by
    unfold maskEqOn
    decide
  have s1 : maskEqOn 5 5 (morphCloseK 5 5 kernel3 2 maskCenter5) maskCenter5 := by
    unfold maskEqOn
    decide
  have s2 : maskEqOn 5 5 (morphOpenK 5 5 kernel3 1 maskCenter5) zeroMask := by
    unfold maskEqOn
    decide
  have s3 : maskEqOn 5 5 (morphCloseK 5 5 kernel5 1 zeroMask) zeroMask := by
    unfold maskEqOn
    decide
  have s4 : maskEqOn 5 5 (morphOpenK 5 5 kernel5 1 zeroMask) zeroMask := by
    unfold maskEqOn
    decide
  have e1 : maskEqOn 5 5
      (morphCloseK 5 5 kernel3 2 (isolateColorMask segC3 (9, 9, 9))) maskCenter5 :=
    maskEqOn_trans (morphCloseK_congrOn s0) s1
  have e2 : maskEqOn 5 5
      (morphOpenK 5 5 kernel3 1
        (morphCloseK 5 5 kernel3 2 (isolateColorMask segC3 (9, 9, 9)))) zeroMask :=
    maskEqOn_trans (morphOpenK_congrOn e1) s2
  have e3 := maskEqOn_trans (morphCloseK_congrOn (K := kernel5) (n := 1) e2) s3
  have e4 := maskEqOn_trans (morphOpenK_congrOn (K := kernel5) (n := 1) e3) s4
  rw [createCleanMask, countNonZero_congrOn e4]
  decide

theorem processSubdividedRegions_error_amended_witness :
    processSubdividedRegions trivialContourModel defaultSegConfig 5 5 segC3 =
      Except.error "No face contour found" ∧
    processSubdividedRegions trivialContourModel defaultSegConfig 2 2 segAllBlack =
      Except.ok [] :=
  ⟨processSubdividedRegions_error_amended.1 trivialContourModel defaultSegConfig 5 5 segC3
      (9, 9, 9) (by decide) segC3_clean_empty,
   processSubdividedRegions_error_amended.2 trivialContourModel defaultSegConfig 2 2 segAllBlack
      (by decide)⟩

theorem foldl_invariant {α β : Type} {P : β → Prop} {f : List β → α → List β}
    (hf : ∀ acc x, (∀ e ∈ acc, P e) → ∀ e ∈ f acc x, P e) :
    ∀ (l : List α) (acc : List β), (∀ e ∈ acc, P e) → ∀ e ∈ l.foldl f acc, P e := by
  intro l
  induction l with
  | nil =>
    intro acc hacc e he
    simpa using hacc e he
  | cons x t ih =>
    intro acc hacc e he
    rw [List.foldl_cons] at he
    exact ih (f acc x) (hf acc x hacc) e he

theorem additionalRegionStep_eye_entries (cv : ContourModel) (cfg : SegConfig)
    (h w : Nat) (seg : SegMap) (acc : List (Nat × List (Int × Int))) (x : Nat × Color)
    (hacc : ∀ e ∈ acc,
      (e.1 = 2 → e.2 = extractContourPoints cv h w (drawUShapedEyeMask w h EyeSide.left)) ∧
      (e.1 = 3 → e.2 = extractContourPoints cv h w (drawUShapedEyeMask w h EyeSide.right))) :
    ∀ e ∈ additionalRegionStep cv cfg h w seg acc x,
      (e.1 = 2 → e.2 = extractContourPoints cv h w (drawUShapedEyeMask w h EyeSide.left)) ∧
      (e.1 = 3 → e.2 = extractContourPoints cv h w (drawUShapedEyeMask w h EyeSide.right)) := by
  intro e he
  simp only [additionalRegionStep] at he
  split at he
  · exact hacc e he
  · split at he
    · split at he
      · exact hacc e he
      · rcases List.mem_append.1 he with h1 | h1
        · exact hacc e h1
        · rw [List.mem_singleton] at h1
          subst h1
          constructor <;> intro h2 <;> simp at h2
    · split at he
      case isTrue h23 =>
        split at he
        case isTrue h2 =>
          split at he
          · exact hacc e he
          · rcases List.mem_append.1 he with h1 | h1
            · exact hacc e h1
            · rw [List.mem_singleton] at h1
              subst h1
              refine ⟨fun _ => rfl, fun hbad => ?_⟩
              simp only at hbad
              omega
        case isFalse h2 =>
          split at he
          · exact hacc e he
          · rcases List.mem_append.1 he with h1 | h1
            · exact hacc e h1
            · rw [List.mem_singleton] at h1
              subst h1
              refine ⟨fun hbad => ?_, fun _ => rfl⟩
              simp only at hbad
              exact absurd hbad h2
      case isFalse => exact hacc e he

/-- C8: the synthetic under-eye mask is exactly the filled bottom
half-ellipse (the 0 to 180 degree sweep) with vertical center int(0.5 * h),
horizontal center w // 3 for the left variant and int(0.68 * w) for the right
variant, and axes (w // 16, h // 20); and every eye entry (region 2 or 3)
stored by the additional-region stage holds the contour extracted from this
synthetic mask, depending only on the grid dimensions, never on the
segmentation-map content. -/
theorem underEye_synthetic_mask :
    (∀ w h : Nat, ∀ r c : Int,
      drawUShapedEyeMask w h EyeSide.left r c = true ↔
        (((h / 2 : Nat) : Int) ≤ r ∧
          ((h / 20 : Nat) : Int) ^ 2 * (c - ((w / 3 : Nat) : Int)) ^ 2 +
            ((w / 16 : Nat) : Int) ^ 2 * (r - ((h / 2 : Nat) : Int)) ^ 2 ≤
            ((w / 16 : Nat) : Int) ^ 2 * ((h / 20 : Nat) : Int) ^ 2)) ∧
    (∀ w h : Nat, ∀ r c : Int,
      drawUShapedEyeMask w h EyeSide.right r c = true ↔
        (((h / 2 : Nat) : Int) ≤ r ∧
          ((h / 20 : Nat) : Int) ^ 2 * (c - ((w * 68 / 100 : Nat) : Int)) ^ 2 +
            ((w / 16 : Nat) : Int) ^ 2 * (r - ((h / 2 : Nat) : Int)) ^ 2 ≤
            ((w / 16 : Nat) : Int) ^ 2 * ((h / 20 : Nat) : Int) ^ 2)) ∧
    (∀ (cv : ContourModel) (cfg : SegConfig) (h w : Nat) (seg : SegMap)
      (ucs : List Color) (c1 : Color),
      ∀ e ∈ processAdditionalRegions cv cfg h w seg ucs c1,
        (e.1 = 2 → e.2 = extractContourPoints cv h w (drawUShapedEyeMask w h EyeSide.left)) ∧
        (e.1 = 3 → e.2 = extractContourPoints cv h w (drawUShapedEyeMask w h EyeSide.right))) := by
  refine ⟨?_, ?_, ?_⟩
  · intro w h r c
    simp [drawUShapedEyeMask]
  · intro w h r c
    simp [drawUShapedEyeMask]
  · intro cv cfg h w seg ucs c1
    exact foldl_invariant (additionalRegionStep_eye_entries cv cfg h w seg) _ [] (by simp)

/-- Oracle whose contour extraction returns one point, used to witness the
eye-entry theorem with a nonempty stored contour. -/
def unitContourModel : ContourModel :=
  { trivialContourModel with extractLargestContourPoints := fun _ => [(0, 0)] }

/-- Uniformly non-black 2-by-2 segmentation map for the C8 witness. -/
def segAll9 : SegMap := fun _ _ => (9, 9, 9)

/-- Unique-color list handing the C8 witness three potential colors, so that
enumerate reaches index 2. -/
def ucsC8 : List Color := [(2, 2, 2), (3, 3, 3), (9, 9, 9)]

theorem dilateK_zeroMask (h w : Nat) (K : List (Int × Int)) :
    dilateK h w K zeroMask = zeroMask := by
  funext r c
  simp [dilateK, zeroMask]

theorem countNonZero_zeroMask (h w : Nat) : countNonZero h w zeroMask = 0 := by
  rw [countNonZero]
  have key : ∀ L : List Nat,
      (L.flatMap fun r => (List.range w).filter fun c =>
        zeroMask (Int.ofNat r) (Int.ofNat c)).length = 0 := by
    intro L
    induction L with
    | nil => rfl
    | cons a t ih =>
      rw [List.flatMap_cons, List.length_append, ih]
      simp [zeroMask]
  exact key _

theorem erodeK_zeroMask_on (h w : Nat) (K : List (Int × Int)) (h00 : ((0 : Int), (0 : Int)) ∈ K) :
    maskEqOn h w (erodeK h w K zeroMask) zeroMask := by
  intro r hr c hc
  simp only [erodeK, zeroMask]
  rw [List.all_eq_false]
  refine ⟨((0 : Int), (0 : Int)), h00, ?_⟩
  have hin : inBounds h w (r : Int) (c : Int) = true := by
    rw [inBounds, decide_eq_true_eq]
    omega
  simp [hin]

theorem iterOp_dilateK_zeroMask (h w : Nat) (K : List (Int × Int)) (n : Nat) :
    iterOp (dilateK h w K) n zeroMask = zeroMask := by
  induction n with
  | zero => rfl
  | succ k ih =>
    show iterOp (dilateK h w K) k (dilateK h w K zeroMask) = zeroMask
    rw [dilateK_zeroMask]
    exact ih

theorem iterOp_erodeK_zeroMask_on (h w : Nat) (K : List (Int × Int))
    (h00 : ((0 : Int), (0 : Int)) ∈ K) (n : Nat) :
    maskEqOn h w (iterOp (erodeK h w K) n zeroMask) zeroMask := by
  induction n with
  | zero => exact fun r hr c hc => rfl
  | succ k ih =>
    show maskEqOn h w (iterOp (erodeK h w K) k (erodeK h w K zeroMask)) zeroMask
    exact maskEqOn_trans
      (iterOp_congrOn (fun x y hxy => erodeK_congrOn hxy) k _ _ (erodeK_zeroMask_on h w K h00))
      ih

theorem morphCloseK_zeroMask_on (h w : Nat) (K : List (Int × Int))
    (h00 : ((0 : Int), (0 : Int)) ∈ K) (n : Nat) :
    maskEqOn h w (morphCloseK h w K n zeroMask) zeroMask := by
  rw [morphCloseK, iterOp_dilateK_zeroMask]
  exact iterOp_erodeK_zeroMask_on h w K h00 n

theorem morphOpenK_zeroMask_on (h w : Nat) (K : List (Int × Int))
    (h00 : ((0 : Int), (0 : Int)) ∈ K) (n : Nat) :
    maskEqOn h w (morphOpenK h w K n zeroMask) zeroMask := by
  rw [morphOpenK]
  refine maskEqOn_trans (iterOp_congrOn (fun x y hxy => dilateK_congrOn hxy) n _ _
    (iterOp_erodeK_zeroMask_on h w K h00 n)) ?_
  rw [iterOp_dilateK_zeroMask]
  exact fun r hr c hc => rfl

/-- A cleaned color mask is empty whenever the isolated color mask is already
empty on the grid. -/
theorem createCleanMask_empty_on {h w : Nat} {seg : SegMap} {color : Color}
    (h0 : maskEqOn h w (isolateColorMask seg color) zeroMask) :
    countNonZero h w (createCleanMask h w seg color) = 0 := by
  have h003 : ((0 : Int), (0 : Int)) ∈ kernel3 := by decide
  have h005 : ((0 : Int), (0 : Int)) ∈ kernel5 := by decide
  have e1 : maskEqOn h w (morphCloseK h w kernel3 2 (isolateColorMask seg color)) zeroMask :=
    maskEqOn_trans (morphCloseK_congrOn h0) (morphCloseK_zeroMask_on h w kernel3 h003 2)
  have e2 := maskEqOn_trans (morphOpenK_congrOn (K := kernel3) (n := 1) e1)
    (morphOpenK_zeroMask_on h w kernel3 h003 1)
  have e3 := maskEqOn_trans (morphCloseK_congrOn (K := kernel5) (n := 1) e2)
    (morphCloseK_zeroMask_on h w kernel5 h005 1)
  have e4 := maskEqOn_trans (morphOpenK_congrOn (K := kernel5) (n := 1) e3)
    (morphOpenK_zeroMask_on h w kernel5 h005 1)
  rw [createCleanMask, countNonZero_congrOn e4]
  exact countNonZero_zeroMask h w

/-- The full 2-by-2 grid as a table mask. -/
def full2 : Mask := fun r c => decide (0 ≤ r ∧ r < 2 ∧ 0 ≤ c ∧ c < 2)

theorem segAll9_clean_full : countNonZero 2 2 (createCleanMask 2 2 segAll9 (9, 9, 9)) = 4 := by
  have f0 : maskEqOn 2 2 (isolateColorMask segAll9 (9, 9, 9)) full2 := by
    unfold maskEqOn
    decide
  have f1 : maskEqOn 2 2 (morphCloseK 2 2 kernel3 2 full2) full2 := by
    unfold maskEqOn
    decide
  have f2 : maskEqOn 2 2 (morphOpenK 2 2 kernel3 1 full2) full2 := by
    unfold maskEqOn
    decide
  have f3 : maskEqOn 2 2 (morphCloseK 2 2 kernel5 1 full2) full2 := by
    unfold maskEqOn
    decide
  have f4 : maskEqOn 2 2 (morphOpenK 2 2 kernel5 1 full2) full2 := by
    unfold maskEqOn
    decide
  have e1 := maskEqOn_trans (morphCloseK_congrOn (K := kernel3) (n := 2) f0) f1
  have e2 := maskEqOn_trans (morphOpenK_congrOn (K := kernel3) (n := 1) e1) f2
  have e3 := maskEqOn_trans (morphCloseK_congrOn (K := kernel5) (n := 1) e2) f3
  have e4 := maskEqOn_trans (morphOpenK_congrOn (K := kernel5) (n := 1) e3) f4
  rw [createCleanMask, countNonZero_congrOn e4]
  decide

theorem processAdditionalRegions_ucsC8_eval :
    processAdditionalRegions unitContourModel defaultSegConfig 2 2 segAll9 ucsC8 (1, 1, 1) =
      [((2 : Nat), ([((0 : Int), (0 : Int))]))] := by
  have ha : countNonZero 2 2 (createCleanMask 2 2 segAll9 (2, 2, 2)) = 0 :=
    createCleanMask_empty_on (by unfold maskEqOn; decide)
  have hb : countNonZero 2 2 (createCleanMask 2 2 segAll9 (3, 3, 3)) = 0 :=
    createCleanMask_empty_on (by unfold maskEqOn; decide)
  have hc := segAll9_clean_full
  have henum : (potentialColors ucsC8 (1, 1, 1)).enum =
      [(0, ((2 : Nat), 2, 2)), (1, ((3 : Nat), 3, 3)), (2, ((9 : Nat), 9, 9))] := by decide
  rw [processAdditionalRegions, henum]
  simp only [List.foldl_cons, List.foldl_nil, additionalRegionStep]
  rw [ha, hb, hc]
  norm_num [defaultSegConfig, extractContourPoints]
  decide

theorem underEye_synthetic_mask_witness :
    ((2 : Nat), ([((0 : Int), (0 : Int))])) ∈
      processAdditionalRegions unitContourModel defaultSegConfig 2 2 segAll9 ucsC8 (1, 1, 1) ∧
    ([((0 : Int), (0 : Int))] : List (Int × Int)) =
      extractContourPoints unitContourModel 2 2 (drawUShapedEyeMask 2 2 EyeSide.left) := by
  have hmem : ((2 : Nat), ([((0 : Int), (0 : Int))])) ∈
      processAdditionalRegions unitContourModel defaultSegConfig 2 2 segAll9 ucsC8 (1, 1, 1) := by
    rw [processAdditionalRegions_ucsC8_eval]
    simp
  exact ⟨hmem, (underEye_synthetic_mask.2.2 unitContourModel defaultSegConfig 2 2 segAll9
    ucsC8 (1, 1, 1) ((2 : Nat), ([((0 : Int), (0 : Int))])) hmem).1 rfl⟩

/-- Style record for one region (the RegionStyle dataclass). -/
structure RegionStyle where
  stroke : String
  fill : String
  strokeWidth : Nat := 2
  strokeDasharray : Option String := none
  fontSize : Nat := 26
  textColor : String := "white"
deriving DecidableEq

/-- Association-list lookup with python dict get semantics on int keys. -/
def alookup {α : Type} (k : Nat) : List (Nat × α) → Option α
  | [] => none
  | e :: t => if k = e.1 then some e.2 else alookup k t

/-- The region_styles table of DefaultStyleConfig (purple theme). -/
def defaultRegionStyles : List (Nat × RegionStyle) :=
  [(1, { stroke := "#9D57A7", fill := "rgba(161, 106, 169, 0.5)", strokeDasharray := some "5,5" }),
   (2, { stroke := "#A16AA9", fill := "rgba(161, 106, 169, 0.5)", strokeDasharray := some "5,5" }),
   (3, { stroke := "#A16AA9", fill := "rgba(161, 106, 169, 0.5)", strokeDasharray := some "5,5" }),
   (4, { stroke := "#A16AA9", fill := "rgba(161, 106, 169, 0.5)", strokeDasharray := some "5,5" }),
   (5, { stroke := "#A16AA9", fill := "rgba(161, 106, 169, 0.5)", strokeDasharray := some "5,5" }),
   (6, { stroke := "#A16AA9", fill := "rgba(161, 106, 169, 0.5)", strokeDasharray := some "5,5" }),
   (7, { stroke := "#A16AA9", fill := "rgba(161, 106, 169, 0.5)", strokeDasharray := some "5,5" })]

/-- The default_style fallback of DefaultStyleConfig. -/
def defaultStyleFallback : RegionStyle :=
  { stroke := "#000000", fill := "rgba(0,0,0,0.2)", strokeDasharray := some "5,5" }

/-- Embeds DefaultStyleConfig.get_region_style: table lookup falling back to
the default style for unmapped region ids. -/
def defaultGetRegionStyle (rid : Nat) : RegionStyle :=
  (alookup rid defaultRegionStyles).getD defaultStyleFallback

/-- One child element of the SVG document (path, text or image); text, when
present, is the element body. -/
structure XmlNode where
  tag : String
  attrs : List (String × String)
  text : Option String := none
deriving DecidableEq

/-- The SVG document: root attributes and the flat list of children, exactly
the tree the generator builds with xml.etree.ElementTree. -/
structure SvgDoc where
  attrs : List (String × String)
  children : List XmlNode
deriving DecidableEq

/-- Single-quote character, written by code point. -/
def sqChar : String := String.singleton (Char.ofNat 39)

/-- Serialize an attribute list in insertion order, as ElementTree does from
python 3.8 on. -/
def attrsToString (attrs : List (String × String)) : String :=
  String.join (attrs.map fun a => " " ++ a.1 ++ "=" ++ "\"" ++ a.2 ++ "\"")

/-- Serialize one child element: self-closing when it has no text body. -/
def xmlNodeToString (n : XmlNode) : String :=
  match n.text with
  | none => "<" ++ n.tag ++ attrsToString n.attrs ++ " />"
  | some t => "<" ++ n.tag ++ attrsToString n.attrs ++ ">" ++ t ++ "</" ++ n.tag ++ ">"

/-- ET.tostring with utf-8 encoding: the xml declaration line, then the svg
element and its children. Attribute-value escaping is not modelled; no value
the generator emits needs escaping. -/
def svgDocToString (d : SvgDoc) : String :=
  "<?xml version=" ++ sqChar ++ "1.0" ++ sqChar ++ " encoding=" ++ sqChar ++ "utf-8" ++
      sqChar ++ "?>\n" ++
    (if d.children = [] then "<svg" ++ attrsToString d.attrs ++ " />"
     else "<svg" ++ attrsToString d.attrs ++ ">" ++
       String.join (d.children.map xmlNodeToString) ++ "</svg>")

/-- The base64 alphabet. -/
def base64Table : List Char :=
  "ABCDEFGHIJKLMNOPQRSTUVWXYZabcdefghijklmnopqrstuvwxyz0123456789+/".data

def b64c (n : Nat) : Char := base64Table.getD n (Char.ofNat 65)

/-- RFC 4648 base64 of a byte list, with padding (61 is the equals sign). -/
def base64Chunks : List Nat → List Char
  | [] => []
  | [a] => [b64c (a / 4), b64c (a % 4 * 16), Char.ofNat 61, Char.ofNat 61]
  | [a, b] => [b64c (a / 4), b64c (a % 4 * 16 + b / 16), b64c (b % 16 * 4), Char.ofNat 61]
  | a :: b :: c :: rest =>
    b64c (a / 4) :: b64c (a % 4 * 16 + b / 16) :: b64c (b % 16 * 4 + c / 64) :: b64c (c % 64) ::
      base64Chunks rest

/-- base64.b64encode of the utf-8 bytes of an ASCII string, decoded back to
a string. -/
def base64EncodeAscii (s : String) : String :=
  String.mk (base64Chunks (s.data.map Char.toNat))

/-- Boundary sums of cv2.moments on a point-array contour over the closed
loop: a00 is the doubled signed area, a10 and a01 the matching unnormalized
first moments (m00 equals the absolute value of a00 over 2, and m10, m01
carry the same sign flip over 6). -/
def polygonMoments (pts : List (Int × Int)) : Int × Int × Int :=
  let pairs := pts.zip (pts.rotate 1)
  ((pairs.map fun pq => pq.1.1 * pq.2.2 - pq.2.1 * pq.1.2).sum,
   (pairs.map fun pq => (pq.1.1 * pq.2.2 - pq.2.1 * pq.1.2) * (pq.1.1 + pq.2.1)).sum,
   (pairs.map fun pq => (pq.1.1 * pq.2.2 - pq.2.1 * pq.1.2) * (pq.1.2 + pq.2.2)).sum)

/-- Embeds SVGGenerator._compute_centroid. The library sign normalization of
the moments cancels in the quotient, so int(m10 / m00) is the truncated
integer quotient of a10 by 3 * a00 (truncation toward zero matches int() on
the exact rational value); when m00 is zero the fallback is the truncated
mean of the coordinates. -/
def computeCentroid (pts : List (Int × Int)) : Int × Int :=
  let m := polygonMoments pts
  if m.1 ≠ 0 then (Int.tdiv m.2.1 (3 * m.1), Int.tdiv m.2.2 (3 * m.1))
  else
    (Int.tdiv (pts.map fun p => p.1).sum (pts.length : Int),
     Int.tdiv (pts.map fun p => p.2).sum (pts.length : Int))

/-- Embeds _create_path_data: an M command at the first point, an L command
for each later point, then Z; the empty contour yields the empty string. -/
def createPathData (contour : List (Int × Int)) : String :=
  match contour with
  | [] => ""
  | p :: rest =>
    "M" ++ toString p.1 ++ "," ++ toString p.2 ++
      String.join (rest.map fun q => " L" ++ toString q.1 ++ "," ++ toString q.2) ++ " Z"

/-- Embeds _create_path_element: the path attributes in source order, with
the dasharray attribute appended only when the style sets one. -/
def createPathElement (style : Nat → RegionStyle) (pathData : String) (rid : Nat) : XmlNode :=
  let st := style rid
  { tag := "path",
    attrs := [("d", pathData), ("stroke", st.stroke),
      ("stroke-width", toString st.strokeWidth), ("fill", st.fill),
      ("class", "region-" ++ toString rid)] ++
      (match st.strokeDasharray with
       | some dd => [("stroke-dasharray", dd)]
       | none => []) }

/-- The text label placed at each region centroid by _add_regions_to_svg,
with the 160 pixel rightward nudge for region 4. -/
def regionLabelNode (style : Nat → RegionStyle) (rid : Nat)
    (contour : List (Int × Int)) : XmlNode :=
  let cen := computeCentroid contour
  let cx := if rid = 4 then cen.1 + 160 else cen.1
  let st := style rid
  { tag := "text",
    attrs := [("x", toString cx), ("y", toString cen.2), ("fill", st.textColor),
      ("font-size", toString st.fontSize), ("text-anchor", "middle"),
      ("dominant-baseline", "middle"), ("class", "region-label-" ++ toString rid)],
    text := some (toString rid) }

/-- Embeds SVGGenerator._add_regions_to_svg as the list of children it
appends: entries that are empty or have fewer than 3 points are skipped
(the emptiness test of the source is subsumed by the length test); other
entries append their path element and their label. -/
def addRegionsToSvg (style : Nat → RegionStyle)
    (contours : List (Nat × List (Int × Int))) : List XmlNode :=
  contours.foldl
    (fun acc e =>
      if e.2.length < 3 then acc
      else
        let pd := createPathData e.2
        if pd = "" then acc
        else acc ++ [createPathElement style pd e.1, regionLabelNode style e.1 e.2])
    []

/-- Embeds _create_svg_root. -/
def createSvgRoot (shape : Int × Int) : SvgDoc :=
  { attrs := [("width", toString shape.2), ("height", toString shape.1),
      ("xmlns", "http://www.w3.org/2000/svg"),
      ("viewBox", "0 0 " ++ toString shape.2 ++ " " ++ toString shape.1)],
    children := [] }

/-- Embeds _add_background_image: the image element inlining the processed
image as a png data url; png encoding (cv2.imencode plus base64) enters the
model as the pngEncode parameter. -/
def backgroundImageNode (pngB64 : String) (shape : Int × Int) : XmlNode :=
  { tag := "image",
    attrs := [("href", "data:image/png;base64," ++ pngB64), ("x", "0"), ("y", "0"),
      ("width", toString shape.2), ("height", toString shape.1),
      ("class", "background-image")] }

/-- Embeds SVGGenerator.generate of src/facial/generators/svg_generator.py:
build the root, add the optional background layer, append the region paths
and labels in dict iteration order, serialize and base64-encode. The
ProcessingError wrapper of the source is unreachable here since every step
is total. -/
def svgGenerate (style : Nat → RegionStyle) (pngEncode : Image → String)
    (shape : Int × Int) (contours : List (Nat × List (Int × Int)))
    (background : Option Image) : String :=
  let root := createSvgRoot shape
  let bgChildren :=
    match background with
    | some img => [backgroundImageNode (pngEncode img) shape]
    | none => []
  let doc : SvgDoc := { root with children := bgChildren ++ addRegionsToSvg style contours }
  base64EncodeAscii (svgDocToString doc)

theorem createPathData_ne_empty (p : Int × Int) (rest : List (Int × Int)) :
    createPathData (p :: rest) ≠ "" := by
  rw [createPathData]
  intro hcontra
  have hlen := congrArg String.length hcontra
  simp only [String.length_append] at hlen
  have h1 : ("M" : String).length = 1 := rfl
  have h2 : ("" : String).length = 0 := rfl
  omega

theorem addRegionsToSvg_eq_flatMap (style : Nat → RegionStyle)
    (contours : List (Nat × List (Int × Int))) :
    addRegionsToSvg style contours = contours.flatMap fun e =>
      if 3 ≤ e.2.length then
        [createPathElement style (createPathData e.2) e.1, regionLabelNode style e.1 e.2]
      else [] := by
  rw [addRegionsToSvg]
  have key : ∀ (l : List (Nat × List (Int × Int))) (acc : List XmlNode),
      l.foldl (fun acc e =>
        if e.2.length < 3 then acc
        else
          let pd := createPathData e.2
          if pd = "" then acc
          else acc ++ [createPathElement style pd e.1, regionLabelNode style e.1 e.2]) acc =
      acc ++ l.flatMap fun e =>
        if 3 ≤ e.2.length then
          [createPathElement style (createPathData e.2) e.1, regionLabelNode style e.1 e.2]
        else [] := by
    intro l
    induction l with
    | nil =>
      intro acc
      simp
    | cons x t ih =>
      intro acc
      rw [List.foldl_cons, List.flatMap_cons]
      by_cases h3 : x.2.length < 3
      · rw [ih]
        dsimp only
        rw [if_pos h3, if_neg (by omega)]
        simp
      · rcases hx : x.2 with _ | ⟨p, rest⟩
        · rw [hx] at h3
          simp at h3
        · have h3b : ¬(p :: rest).length < 3 := by
            rw [← hx]
            exact h3
          have hne : createPathData (p :: rest) ≠ "" := createPathData_ne_empty p rest
          rw [ih]
          dsimp only
          rw [if_neg h3b, if_neg hne, if_pos (by omega : 3 ≤ (p :: rest).length),
            List.append_assoc]
  rw [key contours []]
  simp

/-- C5: in the generated document every region entry with at least 3 contour
points contributes exactly one closed path element (move-to at the first
point, a line-to per later point, then a close command) styled by the style
lookup of its region id, followed by its label; entries with fewer than 3
points contribute no path and no label; the builder is total, so no entry
raises; and the default style configuration resolves mapped region ids to
their table entry and unmapped ones to the fallback style. -/
theorem region_entries_path_spec (style : Nat → RegionStyle)
    (contours : List (Nat × List (Int × Int))) :
    (addRegionsToSvg style contours = contours.flatMap fun e =>
      if 3 ≤ e.2.length then
        [createPathElement style (createPathData e.2) e.1, regionLabelNode style e.1 e.2]
      else []) ∧
    (∀ p : Int × Int, ∀ rest : List (Int × Int),
      createPathData (p :: rest) =
        "M" ++ toString p.1 ++ "," ++ toString p.2 ++
          String.join (rest.map fun q => " L" ++ toString q.1 ++ "," ++ toString q.2) ++ " Z") ∧
    (∀ rid : Nat, alookup rid defaultRegionStyles = none →
      defaultGetRegionStyle rid = defaultStyleFallback) ∧
    (∀ rid : Nat, ∀ st : RegionStyle, alookup rid defaultRegionStyles = some st →
      defaultGetRegionStyle rid = st) := by
  refine ⟨addRegionsToSvg_eq_flatMap style contours, ?_, ?_, ?_⟩
  · intro p rest
    rfl
  · intro rid hnone
    rw [defaultGetRegionStyle, hnone]
    rfl
  · intro rid st hsome
    rw [defaultGetRegionStyle, hsome]
    rfl

theorem region_entries_path_spec_witness :
    defaultGetRegionStyle 9 = defaultStyleFallback ∧
    defaultGetRegionStyle 1 =
      { stroke := "#9D57A7", fill := "rgba(161, 106, 169, 0.5)",
        strokeDasharray := some "5,5" } :=
  ⟨(region_entries_path_spec defaultGetRegionStyle []).2.2.1 9 (by decide),
   (region_entries_path_spec defaultGetRegionStyle []).2.2.2 1 _ (by decide)⟩

/-- Python dict equality for association lists with int keys: the same keys
carry the same values, ignoring insertion order. -/
def pyDictEq {α : Type} (a b : List (Nat × α)) : Prop :=
  (∀ e ∈ a, alookup e.1 b = some e.2) ∧ (∀ e ∈ b, alookup e.1 a = some e.2)

def triA : List (Int × Int) := [(0, 0), (4, 0), (0, 4)]

def triB : List (Int × Int) := [(10, 10), (14, 10), (10, 14)]

def cexA : List (Nat × List (Int × Int)) := [(1, triA), (2, triB)]

def cexB : List (Nat × List (Int × Int)) := [(2, triB), (1, triA)]

set_option maxRecDepth 4000 in
/-- C4 counterexample: two region-contour dicts that are equal as python
dicts (same keys and same value per key) but differ in insertion order
produce different base64-encoded documents under equal shape, equal style
and both-absent background, refuting byte-identical output for equal maps. -/
theorem svgGenerate_dict_order_cex :
    pyDictEq cexA cexB ∧
    svgGenerate defaultGetRegionStyle (fun _ => "") (100, 100) cexA none ≠
      svgGenerate defaultGetRegionStyle (fun _ => "") (100, 100) cexB none := by
  refine ⟨⟨?_, ?_⟩, ?_⟩
  · decide
  · decide
  · decide

theorem alookup_eq_none {α : Type} {k : Nat} {l : List (Nat × α)}
    (hk : k ∉ l.map Prod.fst) : alookup k l = none := by
  induction l with
  | nil => rfl
  | cons x t ih =>
    rw [alookup]
    rw [List.map_cons] at hk
    rw [if_neg (by simp at hk; exact hk.1)]
    exact ih (by simp at hk ⊢; exact hk.2)

theorem alist_eq_of_keys_lookup {α : Type} {a b : List (Nat × α)}
    (hkeys : a.map Prod.fst = b.map Prod.fst) (hnd : (a.map Prod.fst).Nodup)
    (hvals : ∀ k, alookup k a = alookup k b) : a = b := by
  induction a generalizing b with
  | nil =>
    cases b with
    | nil => rfl
    | cons y s => simp at hkeys
  | cons x t ih =>
    cases b with
    | nil => simp at hkeys
    | cons y s =>
      simp only [List.map_cons, List.cons.injEq] at hkeys
      obtain ⟨hk, hks⟩ := hkeys
      have hx : alookup x.1 (x :: t) = some x.2 := by rw [alookup, if_pos rfl]
      have hy : alookup x.1 (y :: s) = some y.2 := by rw [alookup, if_pos hk]
      have hv2 : x.2 = y.2 := by
        have hvx := hvals x.1
        rw [hx, hy] at hvx
        injection hvx
      rw [List.map_cons] at hnd
      obtain ⟨hxnot, hnd2⟩ := List.nodup_cons.1 hnd
      have hvals2 : ∀ k, alookup k t = alookup k s := by
        intro k
        by_cases hkx : k = x.1
        · subst hkx
          rw [alookup_eq_none hxnot, alookup_eq_none (by rw [← hks]; exact hxnot)]
        · have hvk := hvals k
          rw [alookup, if_neg hkx, alookup, if_neg (by rw [← hk]; exact hkx)] at hvk
          exact hvk
      have hts : t = s := ih hks hnd2 hvals2
      have hxy : x = y := Prod.ext hk hv2
      rw [hxy, hts]

/-- C4 amended: generation is deterministic in the ordered entry sequence:
two contour maps with identical key order (equal key lists without
duplicates) and equal value per key generate byte-identical output for equal
shape, style, encoder and background. Equality as unordered dicts alone does
not guarantee this (see the counterexample). -/
theorem svgGenerate_ordered_deterministic (style : Nat → RegionStyle)
    (pngEncode : Image → String) (shape : Int × Int)
    (a b : List (Nat × List (Int × Int))) (background : Option Image)
    (hkeys : a.map Prod.fst = b.map Prod.fst)
    (hnd : (a.map Prod.fst).Nodup)
    (hvals : ∀ k, alookup k a = alookup k b) :
    svgGenerate style pngEncode shape a background =
      svgGenerate style pngEncode shape b background := by
  rw [alist_eq_of_keys_lookup hkeys hnd hvals]

theorem svgGenerate_ordered_deterministic_witness :
    svgGenerate defaultGetRegionStyle (fun _ => "") (100, 100) cexA none =
      svgGenerate defaultGetRegionStyle (fun _ => "") (100, 100) cexA none :=
  svgGenerate_ordered_deterministic defaultGetRegionStyle (fun _ => "") (100, 100)
    cexA cexA none rfl (by decide) (fun _ => rfl)

/-- The dynamically typed contours argument reaching ImageGenerator.create:
either a dict (keyed mapping) or a plain list of contours. -/
inductive ContoursArg
  | dict (d : List (Nat × List (Int × Int)))
  | pylist (l : List (List (Int × Int)))

inductive GenError
  | invalidInput
deriving DecidableEq

/-- Embeds ImageGenerator._validate_inputs: the falsy test and the length
test of the source collapse to requiring exactly two entries; both entries
must be positive; the contours argument must satisfy isinstance dict. -/
def validateInputs (shape : List Int) (arg : ContoursArg) : Bool :=
  match shape with
  | [a, b] =>
    if a ≤ 0 || b ≤ 0 then false
    else
      match arg with
      | ContoursArg.dict _ => true
      | ContoursArg.pylist _ => false
  | _ => false

/-- Embeds ImageGenerator.create (identical validation logic in the app and
the src variants; the error value models ValueError respectively
InvalidInputError): validate first, and only then invoke the injected
generator on the inputs. The pylist branch after successful validation is
unreachable because validation rejects non-dict arguments. -/
def imageGeneratorCreate
    (gen : (Int × Int) → List (Nat × List (Int × Int)) → Option Image → String)
    (shape : List Int) (arg : ContoursArg) (background : Option Image) :
    Except GenError String :=
  if validateInputs shape arg then
    match arg with
    | ContoursArg.dict d =>
      Except.ok (gen (shape.headD 0, (shape.drop 1).headD 0) d background)
    | ContoursArg.pylist _ => Except.error GenError.invalidInput
  else Except.error GenError.invalidInput

/-- Characterization of _validate_inputs. -/
theorem validateInputs_iff (shape : List Int) (arg : ContoursArg) :
    validateInputs shape arg = true ↔
      ((∃ a b : Int, shape = [a, b] ∧ 0 < a ∧ 0 < b) ∧ ∃ d, arg = ContoursArg.dict d) := by
  rcases shape with _ | ⟨a, rest⟩
  · simp [validateInputs]
  · rcases rest with _ | ⟨b, rest2⟩
    · simp [validateInputs]
    · rcases rest2 with _ | ⟨c, rest3⟩
      · cases arg with
        | dict d =>
          simp only [validateInputs]
          constructor
          · intro hv
            split at hv
            · simp at hv
            · rename_i hcond
              simp only [Bool.or_eq_true, decide_eq_true_eq, not_or] at hcond
              refine ⟨⟨a, b, rfl, by omega, by omega⟩, ⟨d, rfl⟩⟩
          · rintro ⟨⟨a2, b2, heq, ha2, hb2⟩, _⟩
            have h1 : a2 = a ∧ b2 = b := by
              injection heq with g1 g2
              injection g2 with g2 _
              exact ⟨g1.symm, g2.symm⟩
            rw [if_neg (by simp only [Bool.or_eq_true, decide_eq_true_eq, not_or]; omega)]
        | pylist l =>
          simp only [validateInputs]
          constructor
          · intro hv
            split at hv <;> simp at hv
          · rintro ⟨_, ⟨d, hd⟩⟩
            simp at hd
      · simp [validateInputs]

/-- C6: create raises the invalid-input error, before any generator work
(uniformly in the generator), exactly when the shape is not a length-2 tuple
of positive numbers or the contours argument is not a dict; on valid input
it returns the generator output; and in particular a contour collection
passed as a list is always rejected. -/
theorem create_invalid_input_iff (shape : List Int) (arg : ContoursArg)
    (background : Option Image) :
    (¬((∃ a b : Int, shape = [a, b] ∧ 0 < a ∧ 0 < b) ∧ ∃ d, arg = ContoursArg.dict d) →
      ∀ gen, imageGeneratorCreate gen shape arg background =
        Except.error GenError.invalidInput) ∧
    ((∃ a b : Int, shape = [a, b] ∧ 0 < a ∧ 0 < b) → ∀ d, arg = ContoursArg.dict d →
      ∀ gen, imageGeneratorCreate gen shape arg background =
        Except.ok (gen (shape.headD 0, (shape.drop 1).headD 0) d background)) ∧
    (∀ l gen, imageGeneratorCreate gen shape (ContoursArg.pylist l) background =
      Except.error GenError.invalidInput) := by
  refine ⟨?_, ?_, ?_⟩
  · intro hbad gen
    have hval : validateInputs shape arg = false := by
      rw [← Bool.not_eq_true, validateInputs_iff]
      exact hbad
    simp [imageGeneratorCreate, hval]
  · rintro ⟨a, b, rfl, ha, hb⟩ d rfl gen
    have hval : validateInputs [a, b] (ContoursArg.dict d) = true := by
      rw [validateInputs_iff]
      exact ⟨⟨a, b, rfl, ha, hb⟩, ⟨d, rfl⟩⟩
    simp [imageGeneratorCreate, hval]
  · intro l gen
    have hval : validateInputs shape (ContoursArg.pylist l) = false := by
      rw [← Bool.not_eq_true, validateInputs_iff]
      rintro ⟨_, ⟨d, hd⟩⟩
      simp at hd
    simp [imageGeneratorCreate, hval]

theorem create_invalid_input_iff_witness :
    imageGeneratorCreate (fun _ _ _ => "out") [(100 : Int), 50] (ContoursArg.pylist []) none =
      Except.error GenError.invalidInput ∧
    imageGeneratorCreate (fun _ _ _ => "out") [(100 : Int), 50] (ContoursArg.dict []) none =
      Except.ok "out" := by
  constructor
  · exact (create_invalid_input_iff [(100 : Int), 50] (ContoursArg.pylist []) none).2.2
      [] (fun _ _ _ => "out")
  · exact (create_invalid_input_iff [(100 : Int), 50] (ContoursArg.dict []) none).2.1
      ⟨100, 50, rfl, by norm_num, by norm_num⟩ [] rfl (fun _ _ _ => "out")

/-! ### Face alignment: autorotate_face and rotate_and_crop_face -/

/-- A facial landmark point with exact rational coordinates (a float pair). -/
abbrev Landmark := ℚ × ℚ

/-- A 2x3 affine matrix [[a, b, c], [d, e, f]] over exact rationals, as
returned by cv2.getRotationMatrix2D. -/
structure Affine where
  a : ℚ
  b : ℚ
  c : ℚ
  d : ℚ
  e : ℚ
  f : ℚ
deriving DecidableEq

/-- Apply a 2x3 affine matrix to a point (x, y) (cv2.transform on one
point). -/
def affineApply (M : Affine) (p : ℚ × ℚ) : ℚ × ℚ :=
  (M.a * p.1 + M.b * p.2 + M.c, M.d * p.1 + M.e * p.2 + M.f)

/-- Invert a 2x3 affine matrix (cv2.invertAffineTransform); none when the
linear part is singular. -/
def affineInvert (M : Affine) : Option Affine :=
  let det := M.a * M.e - M.b * M.d
  if det = 0 then none
  else some ⟨M.e / det, -M.b / det, (M.b * M.f - M.e * M.c) / det,
             -M.d / det, M.a / det, (M.d * M.c - M.a * M.f) / det⟩

/-- Oracle for the transcendental and interpolation primitives of the
alignment code: math.degrees(math.atan2 ...), cosine and sine of an angle
given in degrees, and INTER_CUBIC sampling of a source image at a real
point (none when the point falls outside the source canvas, in which case
warpAffine paints the constant border colour). -/
structure AlignOracle where
  atan2Deg : ℚ → ℚ → ℚ
  cosDeg : ℚ → ℚ
  sinDeg : ℚ → ℚ
  sampleCubic : Image → ℚ → ℚ → Option Pixel

/-- A concrete oracle (angle 0, identity rotation, every sample out of
bounds), used to instantiate witnesses. -/
def trivialAlignOracle : AlignOracle :=
  ⟨fun _ _ => 0, fun _ => 1, fun _ => 0, fun _ _ _ => none⟩

/-- cv2.getRotationMatrix2D(center, angle, 1.0). -/
def getRotationMatrix2D (O : AlignOracle) (center : ℚ × ℚ) (angle : ℚ) :
    Affine :=
  let al := O.cosDeg angle
  let be := O.sinDeg angle
  ⟨al, be, (1 - al) * center.1 - be * center.2,
   -be, al, be * center.1 + (1 - al) * center.2⟩

/-- One destination pixel of cv2.warpAffine: sample the source at the
inverse image of (c, r), falling back to the constant border colour. -/
def warpPixel (O : AlignOracle) (src : Image) (M : Affine) (border : Pixel)
    (c r : Nat) : Pixel :=
  match affineInvert M with
  | none => border
  | some Mi =>
    (O.sampleCubic src (affineApply Mi ((c : ℚ), (r : ℚ))).1
      (affineApply Mi ((c : ℚ), (r : ℚ))).2).getD border

/-- cv2.warpAffine(src, M, dsize, borderValue): the output canvas has
dsize.2 rows of dsize.1 pixels regardless of the source size. -/
def warpAffine (O : AlignOracle) (src : Image) (M : Affine)
    (dsize : Nat × Nat) (border : Pixel) : Image :=
  (List.range dsize.2).map fun r =>
    (List.range dsize.1).map fun c => warpPixel O src M border c r

/-- The landmarks contributing to one eye in autorotate_face: the entries
of the list at indices base..base+5, keeping only those that exist. -/
def eyePts (lmks : List Landmark) (base : Nat) : List Landmark :=
  (List.range 6).filterMap fun j => lmks.get? (base + j)

/-- Mean of a list of rationals. -/
def qAvg (xs : List ℚ) : ℚ := xs.sum / (xs.length : ℚ)

/-- autorotate_face (image_processor.py lines 27-88): average the
landmarks at indices 36-41 and 42-47 into eye centres, rotate image and
landmarks by the eye angle about the canvas centre; when either eye has no
contributing landmark, silently return the input image and landmarks
unchanged.  The warpAffine call passes no borderValue, so the border is
black. -/
def autorotateFace (O : AlignOracle) (image : Image) (lmks : List Landmark) :
    Image × List Landmark :=
  let le := eyePts lmks 36
  let re := eyePts lmks 42
  if 0 < le.length ∧ 0 < re.length then
    let leX := qAvg (le.map Prod.fst)
    let leY := qAvg (le.map Prod.snd)
    let reX := qAvg (re.map Prod.fst)
    let reY := qAvg (re.map Prod.snd)
    let angle := O.atan2Deg (reY - leY) (reX - leX)
    let w := imageW image
    let h := imageH image
    let cx := w / 2
    let cy := h / 2
    let M := getRotationMatrix2D O ((cx : ℚ), (cy : ℚ)) angle
    let rotated := warpAffine O image M (w, h) blackColor
    let cosA := O.cosDeg angle
    let sinA := O.sinDeg angle
    let rlmks := lmks.map fun p =>
      let x := p.1 - (cx : ℚ)
      let y := p.2 - (cy : ℚ)
      (x * cosA - y * sinA + (cx : ℚ), x * sinA + y * cosA + (cy : ℚ))
    (rotated, rlmks)
  else
    (image, lmks.map fun p => (p.1, p.2))

/-- The face-presence check at the top of process_image: an empty landmark
list raises the descriptive no-face error, anything else passes. -/
def noFaceCheck (lmks : List Landmark) : Except String Unit :=
  if lmks.isEmpty then Except.error "No face detected in the image"
  else Except.ok ()

/-- The error the alignment utility can raise: numpy fancy indexing
landmarks[[33, 133]] on a short array raises a generic IndexError. -/
inductive AlignError where
  | indexError
deriving DecidableEq

/-- Truncation of a rational toward zero (ndarray.astype(np.int32)). -/
def qTrunc (q : ℚ) : Int := q.num.tdiv (q.den : Int)

/-- cv2.boundingRect of integer points: (x, y, w, h). -/
def boundingRectInt (pts : List (Int × Int)) : Int × Int × Int × Int :=
  match pts with
  | [] => (0, 0, 0, 0)
  | p :: rest =>
    let x0 := rest.foldl (fun m q => min m q.1) p.1
    let y0 := rest.foldl (fun m q => min m q.2) p.2
    let x1 := rest.foldl (fun m q => max m q.1) p.1
    let y1 := rest.foldl (fun m q => max m q.2) p.2
    (x0, y0, x1 - x0 + 1, y1 - y0 + 1)

/-- calculate_asymmetric_padding: int(0.2*w), int(0.4*h), int(0.15*h)
with floors 30 / 50 / 20; the float products are modelled as exact
rationals truncated toward zero. -/
def calculateAsymmetricPadding (w h : Int) : Int × Int × Int :=
  (max ((2 * w).tdiv 10) 30, max ((4 * h).tdiv 10) 50, max ((15 * h).tdiv 100) 20)

/-- get_padded_bbox: padded bounding box of the points clamped to the
canvas, as (x_start, y_start, x_end, y_end). -/
def getPaddedBbox (pts : List (Int × Int)) (hImg wImg : Int) :
    Int × Int × Int × Int :=
  let bb := boundingRectInt pts
  let pad := calculateAsymmetricPadding bb.2.2.1 bb.2.2.2
  (max (bb.1 - pad.1) 0, max (bb.2.1 - pad.2.1) 0,
   min (bb.1 + bb.2.2.1 + pad.1) wImg, min (bb.2.1 + bb.2.2.2 + pad.2.2) hImg)

/-- Two-dimensional numpy slice img[y1:y2, x1:x2] (y1, x1 nonnegative). -/
def slice2d (img : Image) (y1 y2 x1 x2 : Int) : Image :=
  ((img.drop y1.toNat).take (y2 - y1).toNat).map fun row =>
    (row.drop x1.toNat).take (x2 - x1).toNat

/-- The rotation matrix rotate_and_crop_face builds from the eye landmarks
at MediaPipe indices 33, 133, 362, 263; none when the landmark array is
too short for the fancy-index lookup (a generic IndexError in numpy). -/
def eyeRotationMatrix (O : AlignOracle) (image : Image)
    (lmks : List Landmark) : Option Affine :=
  (lmks.get? 33).bind fun p33 =>
  (lmks.get? 133).bind fun p133 =>
  (lmks.get? 362).bind fun p362 =>
  (lmks.get? 263).map fun p263 =>
    getRotationMatrix2D O
      (((imageW image / 2 : Nat) : ℚ), ((imageH image / 2 : Nat) : ℚ))
      (O.atan2Deg ((p362.2 + p263.2) / 2 - (p33.2 + p133.2) / 2)
        ((p362.1 + p263.1) / 2 - (p33.1 + p133.1) / 2))

/-- The rotated image rotate_and_crop_face produces before cropping:
warpAffine at the input canvas size with gray border (224, 224, 224). -/
def rotatedImageOf (O : AlignOracle) (image : Image)
    (lmks : List Landmark) : Option Image :=
  (eyeRotationMatrix O image lmks).map fun M =>
    warpAffine O image M (imageW image, imageH image) (224, 224, 224)

/-- The rotated landmarks rotate_and_crop_face produces before cropping
(cv2.transform applies the matrix to every landmark). -/
def rotatedLandmarksOf (O : AlignOracle) (image : Image)
    (lmks : List Landmark) : Option (List Landmark) :=
  (eyeRotationMatrix O image lmks).map fun M =>
    lmks.map fun p => affineApply M p

/-- rotate_and_crop_face (face_alignment_utils.py lines 35-83): rotate
image and landmarks by the eye angle, crop a padded bounding box of the
rotated landmarks, shift the landmarks into crop coordinates; a landmark
array too short for the index lookup fails with a generic IndexError. -/
def rotateAndCropFace (O : AlignOracle) (image : Image)
    (lmks : List Landmark) :
    Except AlignError (Image × List Landmark × Affine) :=
  match eyeRotationMatrix O image lmks with
  | none => Except.error AlignError.indexError
  | some M =>
    let rotated := warpAffine O image M (imageW image, imageH image)
      (224, 224, 224)
    let rlmks := lmks.map fun p => affineApply M p
    let bb := getPaddedBbox (rlmks.map fun p => (qTrunc p.1, qTrunc p.2))
      ((imageH rotated : Int)) ((imageW rotated : Int))
    let cropped := slice2d rotated bb.2.1 bb.2.2.2 bb.1 bb.2.2.1
    let clmks := rlmks.map fun p => (p.1 - (bb.1 : ℚ), p.2 - (bb.2.1 : ℚ))
    Except.ok (cropped, clmks, M)

theorem length_warpAffine (O : AlignOracle) (src : Image) (M : Affine)
    (dsize : Nat × Nat) (border : Pixel) :
    (warpAffine O src M dsize border).length = dsize.2 := by
  simp [warpAffine]

theorem row_length_warpAffine (O : AlignOracle) (src : Image) (M : Affine)
    (dsize : Nat × Nat) (border : Pixel) :
    ∀ row ∈ warpAffine O src M dsize border, row.length = dsize.1 := by
  intro row hrow
  simp only [warpAffine, List.mem_map] at hrow
  obtain ⟨r, _, hr⟩ := hrow
  rw [← hr]
  simp

theorem warpPixel_border (O : AlignOracle) (src : Image) (M : Affine)
    (border : Pixel) (c r : Nat)
    (h : ∀ Mi, affineInvert M = some Mi →
      O.sampleCubic src (affineApply Mi ((c : ℚ), (r : ℚ))).1
        (affineApply Mi ((c : ℚ), (r : ℚ))).2 = none) :
    warpPixel O src M border c r = border := by
  unfold warpPixel
  split
  · rfl
  · next Mi hMi =>
      rw [h Mi hMi]
      rfl

theorem eyePts_eq_nil (lmks : List Landmark) (base : Nat)
    (h : lmks.length ≤ base) : eyePts lmks base = [] := by
  rw [eyePts, List.filterMap_eq_nil]
  intro j _
  exact List.get?_eq_none.2 (by omega)

theorem eyePts_ne_nil (lmks : List Landmark) (base : Nat)
    (h : base < lmks.length) : eyePts lmks base ≠ [] := by
  rw [eyePts]
  intro hnil
  rw [List.filterMap_eq_nil] at hnil
  have h0 := hnil 0 (by simp)
  rw [Nat.add_zero, List.get?_eq_none] at h0
  omega

theorem autorotateFace_fallback (O : AlignOracle) (image : Image)
    (lmks : List Landmark) (h : lmks.length ≤ 36) :
    autorotateFace O image lmks = (image, lmks) := by
  have hle : eyePts lmks 36 = [] := eyePts_eq_nil lmks 36 h
  simp [autorotateFace, hle]

theorem autorotateFace_rotated (O : AlignOracle) (image : Image)
    (lmks : List Landmark)
    (h1 : eyePts lmks 36 ≠ []) (h2 : eyePts lmks 42 ≠ []) :
    (autorotateFace O image lmks).1.length = imageH image ∧
    (∀ row ∈ (autorotateFace O image lmks).1, row.length = imageW image) ∧
    (autorotateFace O image lmks).2.length = lmks.length := by
  have hc : 0 < (eyePts lmks 36).length ∧ 0 < (eyePts lmks 42).length :=
    ⟨List.length_pos.2 h1, List.length_pos.2 h2⟩
  simp only [autorotateFace]
  rw [if_pos hc]
  refine ⟨?_, ?_, ?_⟩
  · exact length_warpAffine O image _ (imageW image, imageH image) blackColor
  · exact row_length_warpAffine O image _ (imageW image, imageH image) blackColor
  · exact List.length_map lmks _

/-- A landmark list of length 2, below the minimum for any eye-index
lookup. -/
def lmksC1 : List Landmark := [((1 : ℚ), (2 : ℚ)), ((3 : ℚ), (4 : ℚ))]

/-- A one-pixel input image for the alignment counterexample. -/
def imgC1 : Image := [[(10, 20, 30)]]

/-- C1 counterexample: on a landmark list of length 2 the pipeline's
autorotate_face silently returns the input image and landmarks unchanged
(zero rotation, no error), the process_image no-face check passes the
list on (it only rejects empty lists), and rotate_and_crop_face fails
with a generic IndexError, not a descriptive invalid-input error — so no
stage fails fast with a descriptive no-face error as claimed. -/
theorem autorotate_silent_fallback_cex :
    autorotateFace trivialAlignOracle imgC1 lmksC1 = (imgC1, lmksC1) ∧
    noFaceCheck lmksC1 = Except.ok () ∧
    rotateAndCropFace trivialAlignOracle imgC1 lmksC1 =
      Except.error AlignError.indexError := by
  refine ⟨?_, rfl, rfl⟩
  rfl

/-- C1 amended: what the code actually does on landmark lists too short
for the eye-index lookup: autorotate_face returns the input image and
landmark list unchanged whenever no index reaches 36 (silent zero
rotation); the process_image entry raises its descriptive no-face error
only for an empty landmark list and passes any non-empty list; and
rotate_and_crop_face fails with a generic IndexError (not a descriptive
invalid-input error) whenever no index reaches 33. -/
theorem autorotate_short_landmarks_amended (O : AlignOracle) (image : Image)
    (lmks : List Landmark) :
    (lmks.length ≤ 36 → autorotateFace O image lmks = (image, lmks)) ∧
    (lmks ≠ [] → noFaceCheck lmks = Except.ok ()) ∧
    (lmks.length ≤ 33 →
      rotateAndCropFace O image lmks = Except.error AlignError.indexError) := by
  refine ⟨fun h => autorotateFace_fallback O image lmks h, ?_, ?_⟩
  · intro hne
    rw [noFaceCheck, if_neg]
    simp [hne]
  · intro h33
    have hnone : lmks.get? 33 = none := List.get?_eq_none.2 h33
    have hM : eyeRotationMatrix O image lmks = none := by
      rw [eyeRotationMatrix, hnone]
      rfl
    rw [rotateAndCropFace.eq_def, hM]

theorem autorotate_short_landmarks_amended_witness :
    autorotateFace trivialAlignOracle [[((5 : Nat), 5, 5)]] [((0 : ℚ), (1 : ℚ))] =
      ([[((5 : Nat), 5, 5)]], [((0 : ℚ), (1 : ℚ))]) ∧
    noFaceCheck [((0 : ℚ), (1 : ℚ))] = Except.ok () ∧
    rotateAndCropFace trivialAlignOracle [[((5 : Nat), 5, 5)]] [((0 : ℚ), (1 : ℚ))] =
      Except.error AlignError.indexError :=
  ⟨(autorotate_short_landmarks_amended trivialAlignOracle
      [[((5 : Nat), 5, 5)]] [((0 : ℚ), (1 : ℚ))]).1 (by decide),
   (autorotate_short_landmarks_amended trivialAlignOracle
      [[((5 : Nat), 5, 5)]] [((0 : ℚ), (1 : ℚ))]).2.1 (by decide),
   (autorotate_short_landmarks_amended trivialAlignOracle
      [[((5 : Nat), 5, 5)]] [((0 : ℚ), (1 : ℚ))]).2.2 (by decide)⟩

/-- C10: with enough landmarks for the eye lookup (index 362 in range),
rotation alters neither canvas size nor landmark count: the rotation
matrix exists, the rotated image rotate_and_crop_face produces before
cropping has exactly imageH image rows each of width imageW image, any
destination pixel whose inverse image falls outside the source canvas
(its cubic sample is none) is filled with gray (224, 224, 224), the
rotated landmark sequence has the input's length, and autorotate_face
likewise preserves canvas height, row width and landmark count. -/
theorem rotation_preserves_frame (O : AlignOracle) (image : Image)
    (lmks : List Landmark) (h363 : 363 ≤ lmks.length) :
    ∃ M, eyeRotationMatrix O image lmks = some M ∧
      rotatedImageOf O image lmks =
        some (warpAffine O image M (imageW image, imageH image)
          (224, 224, 224)) ∧
      (warpAffine O image M (imageW image, imageH image)
        (224, 224, 224)).length = imageH image ∧
      (∀ row ∈ warpAffine O image M (imageW image, imageH image)
        (224, 224, 224), row.length = imageW image) ∧
      (∀ c r : Nat,
        (∀ Mi, affineInvert M = some Mi →
          O.sampleCubic image (affineApply Mi ((c : ℚ), (r : ℚ))).1
            (affineApply Mi ((c : ℚ), (r : ℚ))).2 = none) →
        warpPixel O image M (224, 224, 224) c r = (224, 224, 224)) ∧
      (∃ l2, rotatedLandmarksOf O image lmks = some l2 ∧
        l2.length = lmks.length) ∧
      (autorotateFace O image lmks).1.length = imageH image ∧
      (∀ row ∈ (autorotateFace O image lmks).1,
        row.length = imageW image) ∧
      (autorotateFace O image lmks).2.length = lmks.length := by
  have e33 : lmks.get? 33 = some (lmks.get ⟨33, by omega⟩) :=
    List.get?_eq_get (by omega)
  have e133 : lmks.get? 133 = some (lmks.get ⟨133, by omega⟩) :=
    List.get?_eq_get (by omega)
  have e362 : lmks.get? 362 = some (lmks.get ⟨362, by omega⟩) :=
    List.get?_eq_get (by omega)
  have e263 : lmks.get? 263 = some (lmks.get ⟨263, by omega⟩) :=
    List.get?_eq_get (by omega)
  have hM : ∃ M, eyeRotationMatrix O image lmks = some M := by
    rw [eyeRotationMatrix, e33, e133, e362, e263]
    exact ⟨_, rfl⟩
  obtain ⟨M, hM⟩ := hM
  have hauto := autorotateFace_rotated O image lmks
    (eyePts_ne_nil lmks 36 (by omega)) (eyePts_ne_nil lmks 42 (by omega))
  refine ⟨M, hM, ?_, ?_, ?_, ?_, ?_, hauto.1, hauto.2.1, hauto.2.2⟩
  · rw [rotatedImageOf, hM]
    rfl
  · exact length_warpAffine O image M (imageW image, imageH image) _
  · exact row_length_warpAffine O image M (imageW image, imageH image) _
  · exact fun c r h => warpPixel_border O image M (224, 224, 224) c r h
  · refine ⟨lmks.map fun p => affineApply M p, ?_, List.length_map lmks _⟩
    rw [rotatedLandmarksOf, hM]
    rfl

/-- A landmark list of length 363, long enough for every eye-index
lookup of the alignment code. -/
def lmksC10 : List Landmark := List.replicate 363 ((0 : ℚ), (0 : ℚ))

/-- A one-pixel input image for the frame-preservation witness. -/
def imgC10 : Image := [[(7, 7, 7)]]

set_option maxRecDepth 4000 in
theorem rotation_preserves_frame_witness :
    ∃ M, eyeRotationMatrix trivialAlignOracle imgC10 lmksC10 = some M ∧
      rotatedImageOf trivialAlignOracle imgC10 lmksC10 =
        some (warpAffine trivialAlignOracle imgC10 M
          (imageW imgC10, imageH imgC10) (224, 224, 224)) ∧
      (warpAffine trivialAlignOracle imgC10 M
        (imageW imgC10, imageH imgC10) (224, 224, 224)).length =
        imageH imgC10 ∧
      (∀ row ∈ warpAffine trivialAlignOracle imgC10 M
        (imageW imgC10, imageH imgC10) (224, 224, 224),
        row.length = imageW imgC10) ∧
      (∀ c r : Nat,
        (∀ Mi, affineInvert M = some Mi →
          trivialAlignOracle.sampleCubic imgC10
            (affineApply Mi ((c : ℚ), (r : ℚ))).1
            (affineApply Mi ((c : ℚ), (r : ℚ))).2 = none) →
        warpPixel trivialAlignOracle imgC10 M (224, 224, 224) c r =
          (224, 224, 224)) ∧
      (∃ l2, rotatedLandmarksOf trivialAlignOracle imgC10 lmksC10 = some l2 ∧
        l2.length = lmksC10.length) ∧
      (autorotateFace trivialAlignOracle imgC10 lmksC10).1.length =
        imageH imgC10 ∧
      (∀ row ∈ (autorotateFace trivialAlignOracle imgC10 lmksC10).1,
        row.length = imageW imgC10) ∧
      (autorotateFace trivialAlignOracle imgC10 lmksC10).2.length =
        lmksC10.length :=
  rotation_preserves_frame trivialAlignOracle imgC10 lmksC10
    (by simp [lmksC10])
